import Mathlib

/-
Verification development for the regular-language pipeline
(regex AST to epsilon-NFA to epsilon-free NFA to sparse DFA to dense DFA
to minimized DFA).  Every definition below is a shallow embedding of the
corresponding Rust item, translated from the source files
src/lib.rs, src/nfa.rs, src/dfa.rs and src/dfa/minimize.rs.
Machine integers (u8, u32, u128, usize) are modelled as Nat: all ids and
subset encodings stay far below 2 pow 128 whenever the Rust code runs
without overflow, and bitwise or / shift on Nat agree with u128 there.
HashMap / HashSet are modelled as association lists / Finset; every
observable use in the source is order-insensitive or explicitly sorted,
which is noted where it matters.  Loops whose termination is not
structural are given explicit fuel and return none when the fuel runs
out; concrete runs use fuel that is checked (by evaluation) to suffice.
Rust panics on impossible paths (out-of-bounds indexing, unwrap of a
value the construction guarantees) are modelled by total defaults or by
error results, noted at each definition.
-/

set_option maxRecDepth 20000

deriving instance DecidableEq for Except

namespace RL

/- ===================== dense DFA (src/dfa.rs) ===================== -/

/-- State01 mirrors struct State01 of src/dfa.rs: the two successor ids
of a sparse binary-alphabet DFA state, for input byte 0 and input byte 1.
A value 0 encodes the missing transition, as in State01::new. -/
structure State01 where
  zero_to : Nat
  one_to : Nat
deriving DecidableEq, Repr

/-- State01.new from src/dfa.rs. -/
def State01.new : State01 := ⟨0, 0⟩

/-- Transisions (sic) mirrors struct Transisions of src/dfa.rs: a flat
table indexed by state times stride plus alphabet index. -/
structure Transisions (T : Type) where
  trans : List T
  stride_as_power_of_2 : Nat
deriving DecidableEq, Repr

/-- Transisions::stride from src/dfa.rs. -/
def Transisions.stride {T : Type} (t : Transisions T) : Nat :=
  1 <<< t.stride_as_power_of_2

/-- Transisions::number_of_states from src/dfa.rs. -/
def Transisions.number_of_states {T : Type} (t : Transisions T) : Nat :=
  t.trans.length >>> t.stride_as_power_of_2

/-- Rust usize::next_power_of_two: the smallest power of two that is at
least the argument (1 for argument 0), computed here as the first
sufficient power in ascending order, which exists because 2 pow n
exceeds n. -/
def next_power_of_two (n : Nat) : Nat :=
  (((List.range (n + 1)).map (fun k => 2 ^ k)).find? (fun p => n ≤ p)).getD 1

/-- Rust trailing_zeros as applied to the stride: the source only takes
trailing zeros of next_power_of_two results, and for a power of two the
count of trailing zeros is its exponent, recovered here as the first
matching exponent. -/
def pow2_exponent (n : Nat) : Nat :=
  ((List.range (n + 1)).find? (fun k => 2 ^ k == n)).getD 0

/-- Transisions::new_with_num_and_stride for the successor table
(impl Transisions of StateId in src/dfa.rs). -/
def Transisions.newNat (number_of_states alghabet_len : Nat) : Transisions Nat :=
  let stride := next_power_of_two alghabet_len
  { trans := List.replicate (number_of_states * stride) 0
    stride_as_power_of_2 := pow2_exponent stride }

/-- Transisions::new_with_num_and_stride for the predecessor table
(impl Transisions of Vec StateId in src/dfa.rs). -/
def Transisions.newList (number_of_states alghabet_len : Nat) : Transisions (List Nat) :=
  let stride := next_power_of_two alghabet_len
  { trans := List.replicate (number_of_states * stride) []
    stride_as_power_of_2 := pow2_exponent stride }

/-- DenseDFA mirrors struct DenseDFA of src/dfa.rs.  The accept-state
HashSet is a Finset. -/
structure DenseDFA where
  alphabet : List Nat
  out_transitions : Transisions Nat
  in_transitions : Transisions (List Nat)
  start_state : Option Nat
  accept_states : Finset Nat
deriving DecidableEq

/-- CompletedDfa::number_of_states for DenseDFA (src/dfa.rs). -/
def DenseDFA.number_of_states (d : DenseDFA) : Nat :=
  d.out_transitions.number_of_states

/-- DenseDFA::alphabet_index_of (src/dfa.rs).  Rust panics when the
input byte is absent from the alphabet; List.indexOf then returns the
alphabet length, and every use in the claims is on present inputs. -/
def DenseDFA.alphabet_index_of (d : DenseDFA) (input : Nat) : Nat :=
  d.alphabet.indexOf input

/-- CompletedDfa::delta for DenseDFA (src/dfa.rs): direct table lookup
at from shifted by the stride exponent plus the alphabet index.  Rust
panics on an unknown state or input; out-of-range reads are modelled by
the default 0. -/
def DenseDFA.delta (d : DenseDFA) (from_ input : Nat) : Nat :=
  d.out_transitions.trans.getD
    ((from_ <<< d.out_transitions.stride_as_power_of_2) + d.alphabet_index_of input) 0

/-- DenseDFA::add_transition (src/dfa.rs): writes the successor cell and
pushes the origin onto the matching predecessor cell. -/
def DenseDFA.add_transition (d : DenseDFA) (from_ input to_ : Nat) : DenseDFA :=
  let from_index := from_ * d.out_transitions.stride + d.alphabet_index_of input
  let to_index := to_ * d.in_transitions.stride + d.alphabet_index_of input
  { d with
    out_transitions := { d.out_transitions with
      trans := d.out_transitions.trans.set from_index to_ }
    in_transitions := { d.in_transitions with
      trans := d.in_transitions.trans.set to_index
        ((d.in_transitions.trans.getD to_index []) ++ [from_]) } }

/- ===================== minimizer (src/dfa/minimize.rs) ===================== -/

/-- order_pair from src/dfa/minimize.rs. -/
def order_pair (state1 state2 : Nat) : Nat × Nat :=
  if state1 < state2 then (state1, state2) else (state2, state1)

/-- StatePair mirrors struct StatePair of src/dfa/minimize.rs: the
distinguishable flag and the list of pairs whose indistinguishability
was recorded as conditional on this pair. -/
structure StatePair where
  associated : List (Nat × Nat)
  distinguishable : Bool
deriving DecidableEq, Repr

/-- StatePair::new from src/dfa/minimize.rs. -/
def StatePair.new : StatePair := ⟨[], false⟩

/-- PairTable mirrors struct PairTable of src/dfa/minimize.rs:
PairTable::new builds state_num minus one rows of state_num cells. -/
structure PairTable where
  table : List (List StatePair)
deriving DecidableEq, Repr

/-- PairTable::new from src/dfa/minimize.rs. -/
def PairTable.new (state_num : Nat) : PairTable :=
  ⟨List.replicate (state_num - 1) (List.replicate state_num StatePair.new)⟩

/-- Cell read used by PairTable::get and PairTable::for_each.  Rust
panics on out-of-bounds indexing; reads outside the table are modelled
by the default StatePair.new, and every use in the source stays inside
the table for well-formed inputs. -/
def PairTable.cell (t : PairTable) (row col : Nat) : StatePair :=
  (t.table.getD row []).getD col StatePair.new

/-- Cell update helper shared by the mutations of PairTable; List.set
outside the table is the identity (Rust would panic there). -/
def PairTable.setCell (t : PairTable) (row col : Nat) (p : StatePair) : PairTable :=
  ⟨t.table.set row ((t.table.getD row []).set col p)⟩

/-- PairTable::is_distinguishable from src/dfa/minimize.rs. -/
def PairTable.is_distinguishable (t : PairTable) (state1 state2 : Nat) : Bool :=
  let p := order_pair state1 state2
  (t.cell p.1 p.2).distinguishable

/-- Flag write of PairTable::distinguish and of the accept/non-accept
marking loop in compute_indistin_state_groups. -/
def PairTable.markDistin (t : PairTable) (state1 state2 : Nat) : PairTable :=
  let p := order_pair state1 state2
  t.setCell p.1 p.2 { t.cell p.1 p.2 with distinguishable := true }

/-- Emptying of the associated list in PairTable::distinguish
(mem::replace with the empty vector). -/
def PairTable.clearAssoc (t : PairTable) (state1 state2 : Nat) : PairTable :=
  let p := order_pair state1 state2
  t.setCell p.1 p.2 { t.cell p.1 p.2 with associated := [] }

/-- StatePair::add_relation applied through PairTable::get: pushes the
ordered dependent pair onto the associated list of the target pair. -/
def PairTable.add_relation (t : PairTable) (to1 to2 state1 state2 : Nat) : PairTable :=
  let p := order_pair to1 to2
  t.setCell p.1 p.2 { t.cell p.1 p.2 with
    associated := (t.cell p.1 p.2).associated ++ [order_pair state1 state2] }

/-- Total number of entries across all associated lists of the table;
this quantity strictly decreases whenever PairTable::distinguish
consumes a nonempty associated list, and it bounds the recursion. -/
def PairTable.totalAssoc (t : PairTable) : Nat :=
  (t.table.map (fun row => (row.map (fun p => p.associated.length)).sum)).sum

/-- Sequential processing of the associated pairs taken out by
PairTable::distinguish, parameterized by the recursive call. -/
def distinguishList (f : PairTable → Nat → Nat → Option (PairTable × Nat)) :
    PairTable → List (Nat × Nat) → Option (PairTable × Nat)
  | t, [] => some (t, 0)
  | t, q :: rest =>
    (f t q.1 q.2).bind (fun r =>
      (distinguishList f r.1 rest).map (fun r2 => (r2.1, r.2 + r2.2)))

/-- PairTable::distinguish from src/dfa/minimize.rs, with explicit fuel
bounding the recursion depth and with a count of the calls made: mark
the ordered pair, return if its associated list is empty, otherwise take
the list out and recursively distinguish every recorded pair.  none
means the fuel ran out (the sufficiency theorem below shows fuel
totalAssoc plus one never does). -/
def distinguishC : Nat → PairTable → Nat → Nat → Option (PairTable × Nat)
  | 0, _, _, _ => none
  | fuel + 1, t, state1, state2 =>
    let p := order_pair state1 state2
    let t1 := t.markDistin p.1 p.2
    let assoc := (t1.cell p.1 p.2).associated
    if assoc = [] then some (t1, 1)
    else
      let t2 := t1.clearAssoc p.1 p.2
      (distinguishList (distinguishC fuel) t2 assoc).map (fun r => (r.1, r.2 + 1))

/-- PairTable::distinguish with the proven-sufficient fuel; the fallback
branch is dead by the sufficiency theorem. -/
def PairTable.distinguish (t : PairTable) (state1 state2 : Nat) : PairTable :=
  match distinguishC (t.totalAssoc + 1) t state1 state2 with
  | some r => r.1
  | none => t

/-- IndistinGroups mirrors struct IndistinGroups of
src/dfa/minimize.rs; each HashSet of state ids is a Finset. -/
structure IndistinGroups where
  groups : List (Finset Nat)
deriving DecidableEq

/-- IndistinGroups::insert_pair from src/dfa/minimize.rs, including the
double Vec::remove of the merge branch: the second remove uses the index
computed before the first removal shifted the vector, so with i1 < i2 it
takes the element that sits at position i2 after the shift.  Rust panics
when that position is gone; the model reads the empty set and leaves the
list unchanged there. -/
def IndistinGroups.insert_pair (g : IndistinGroups) (state1 state2 : Nat) : IndistinGroups :=
  let p := order_pair state1 state2
  let s1 := p.1
  let s2 := p.2
  let i1? := g.groups.findIdx? (fun grp => decide (s1 ∈ grp))
  let i2? := g.groups.findIdx? (fun grp => decide (s2 ∈ grp))
  match i1?, i2? with
  | some i1, some i2 =>
    if i1 = i2 then g
    else
      let group1 := g.groups.getD i1 ∅
      let l1 := g.groups.eraseIdx i1
      let group2 := l1.getD i2 ∅
      let l2 := l1.eraseIdx i2
      ⟨l2 ++ [group1 ∪ group2]⟩
  | some i1, none => ⟨g.groups.set i1 (insert s2 (g.groups.getD i1 ∅))⟩
  | none, some i2 => ⟨g.groups.set i2 (insert s1 (g.groups.getD i2 ∅))⟩
  | none, none => ⟨g.groups ++ [insert s1 {s2}]⟩

/-- IndistinGroups::num_of_groups from src/dfa/minimize.rs. -/
def IndistinGroups.num_of_groups (g : IndistinGroups) : Nat := g.groups.length

/-- IndistinGroups::num_of_indistin_states from src/dfa/minimize.rs. -/
def IndistinGroups.num_of_indistin_states (g : IndistinGroups) : Nat :=
  (g.groups.map Finset.card).sum

/-- IndistinGroups::contains_at from src/dfa/minimize.rs. -/
def IndistinGroups.contains_at (g : IndistinGroups) (state : Nat) : Option Nat :=
  g.groups.findIdx? (fun grp => decide (state ∈ grp))

/-- IndistinGroups::remap from src/dfa/minimize.rs: old ids outside any
group are compacted in order, each group is mapped to one fresh id after
them.  The Rust assert_eq at the end is not modelled (it holds for the
groups the minimizer builds). -/
def IndistinGroups.remap (g : IndistinGroups) (max_len : Nat) : List (Nat × Nat) :=
  let number_of_distin := max_len - g.num_of_indistin_states
  ((List.range max_len).foldl
    (fun (acc : List (Nat × Nat) × Nat) old_id =>
      match g.contains_at old_id with
      | some group_id => (acc.1 ++ [(old_id, number_of_distin + group_id)], acc.2)
      | none => (acc.1 ++ [(old_id, acc.2)], acc.2 + 1))
    ([], 0)).1

/-- Lookup in an association-list id map; the Rust HashMap index panics
on a missing key, modelled by the default 0 (never hit by the uses the
claims exercise). -/
def lookup0 (m : List (Nat × Nat)) (k : Nat) : Nat :=
  ((m.find? (fun q => q.1 == k)).map Prod.snd).getD 0

/-- Accept/non-accept base marking of compute_indistin_state_groups
(src/dfa/minimize.rs): every pair of one accepting and one
non-accepting state is marked distinguishable.  The HashSet iteration
order is irrelevant because only commuting flag writes happen; the model
iterates the accepting states in ascending order through the state
range (an accepting id outside the range would make Rust panic on the
table index, modelled as a skipped no-op write). -/
def initAcceptMarks (d : DenseDFA) (t : PairTable) : PairTable :=
  (List.range d.number_of_states).foldl
    (fun t state1 =>
      if state1 ∈ d.accept_states then
        (List.range d.number_of_states).foldl
          (fun t state2 =>
            if state2 ∈ d.accept_states then t else t.markDistin state1 state2)
          t
      else t)
    t

/-- Per-symbol loop of the pair scan in compute_indistin_state_groups,
with the break on the first symbol whose successors are already
distinguishable (then the pair is distinguished and the collected
temp relations are dropped). -/
def scanInputs (d : DenseDFA) (state1 state2 : Nat) :
    PairTable → List Nat → List (Nat × Nat) → PairTable × List (Nat × Nat)
  | t, [], temp => (t, temp)
  | t, input :: rest, temp =>
    let to1 := d.delta state1 input
    let to2 := d.delta state2 input
    if to1 = to2 then scanInputs d state1 state2 t rest temp
    else if t.is_distinguishable to1 to2 then (t.distinguish state1 state2, temp)
    else scanInputs d state1 state2 t rest (temp ++ [(to1, to2)])

/-- Body of the pair scan of compute_indistin_state_groups for one
unordered pair: skip already-distinguished pairs, examine every symbol,
and when the pair stays undistinguished record every collected
dependency on the corresponding successor pair. -/
def scanPair (d : DenseDFA) (t : PairTable) (state1 state2 : Nat) : PairTable :=
  if t.is_distinguishable state1 state2 then t
  else
    let r := scanInputs d state1 state2 t d.alphabet []
    if r.1.is_distinguishable state1 state2 then r.1
    else r.2.foldl (fun t q => t.add_relation q.1 q.2 state1 state2) r.1

/-- Pair scan of compute_indistin_state_groups (src/dfa/minimize.rs):
state1 from 0 to n minus 2, state2 from state1 plus 1 to n minus 1.
With n equal to 0 the Rust range 0..n-1 underflows and panics; the model
produces the empty range, and no claim exercises n equal to 0. -/
def scanAllPairs (d : DenseDFA) (t : PairTable) : PairTable :=
  (List.range (d.number_of_states - 1)).foldl
    (fun t state1 =>
      (List.range' (state1 + 1) (d.number_of_states - (state1 + 1))).foldl
        (fun t state2 => scanPair d t state1 state2)
        t)
    t

/-- compute_indistin_state_groups from src/dfa/minimize.rs: base
marking, one pair scan, then the grouping pass driven by
PairTable::for_each.  PairTable::for_each iterates state1 from 0 to
table.len() minus 2 and state2 up to table.len() minus 1, where
table.len() is the state count minus one: this is translated verbatim
(it is the bound the claims C2 and C4 are about). -/
def compute_indistin_state_groups (d : DenseDFA) : IndistinGroups :=
  let t0 := PairTable.new d.number_of_states
  let t1 := initAcceptMarks d t0
  let t2 := scanAllPairs d t1
  let m := t2.table.length
  (List.range (m - 1)).foldl
    (fun g state1 =>
      (List.range' (state1 + 1) (m - (state1 + 1))).foldl
        (fun (g : IndistinGroups) state2 =>
          if (t2.cell state1 state2).distinguishable then g
          else g.insert_pair state1 state2)
        g)
    ⟨[]⟩

/-- DfaConfig mirrors struct DfaConfig of src/dfa.rs. -/
structure DfaConfig where
  number_of_states : Nat
  alphabet : List Nat
  start_state_id : Nat
  accept_states : Finset Nat
  id_map : List (Nat × Nat)
deriving DecidableEq

/-- DfaConfig::new_for_minimize from src/dfa.rs.  Rust unwraps the
start state (panic when absent), modelled by the default 0. -/
def DfaConfig.new_for_minimize (d : DenseDFA) (indistin : IndistinGroups) : DfaConfig :=
  { number_of_states :=
      d.number_of_states - indistin.num_of_indistin_states + indistin.num_of_groups
    alphabet := d.alphabet
    start_state_id := d.start_state.getD 0
    accept_states := d.accept_states
    id_map := indistin.remap d.number_of_states }

/-- DenseDFA::init_with_config from src/dfa.rs. -/
def DenseDFA.init_with_config (config : DfaConfig) : DenseDFA :=
  { alphabet := config.alphabet
    out_transitions := Transisions.newNat config.number_of_states config.alphabet.length
    in_transitions := Transisions.newList config.number_of_states config.alphabet.length
    start_state := some (lookup0 config.id_map config.start_state_id)
    accept_states := config.accept_states.image (fun id => lookup0 config.id_map id) }

/-- DenseDFA::minimize from src/dfa.rs: compute the indistinguishable
groups, return none when there are no groups, otherwise build the new
dense DFA through the remap, copying each ungrouped state and one
representative per group.  Rust picks the representative by HashSet
iteration order; the model picks the smallest member (all members of a
correct group have identical mapped successors, and the concrete
counterexample below is insensitive to the choice).  Rust unwraps on an
empty group (impossible for groups built by insert_pair); the model
skips such a group. -/
def DenseDFA.minimize (d : DenseDFA) : Option DenseDFA :=
  let indistin_groups := compute_indistin_state_groups d
  if indistin_groups.num_of_groups = 0 then none
  else
    let config := DfaConfig.new_for_minimize d indistin_groups
    let m0 := DenseDFA.init_with_config config
    let m1 := (List.range d.number_of_states).foldl
      (fun m old_state_id =>
        if (indistin_groups.contains_at old_state_id).isSome then m
        else
          let from_ := lookup0 config.id_map old_state_id
          d.alphabet.foldl
            (fun m input =>
              m.add_transition from_ input (lookup0 config.id_map (d.delta old_state_id input)))
            m)
      m0
    let m2 := indistin_groups.groups.foldl
      (fun m group =>
        match (List.range d.number_of_states).find? (fun s => decide (s ∈ group)) with
        | none => m
        | some old_id =>
          let from_ := lookup0 config.id_map old_id
          d.alphabet.foldl
            (fun m input =>
              m.add_transition from_ input (lookup0 config.id_map (d.delta old_id input)))
            m)
      m1
    some m2

/- ===================== sparse DFA and subset construction (src/dfa.rs) ===================== -/

/-- DFA01 mirrors struct DFA01 of src/dfa.rs.  The HashMap from state id
to State01 is an association list with unique keys; every observable
iteration in the source sorts by key (states_iter, states_with_id_iter)
or is order-insensitive, so the list order itself is never observable. -/
structure DFA01 where
  states : List (Nat × State01)
  alphabet : Nat × Nat
  start_state : Option Nat
  accept_states : Finset Nat
deriving DecidableEq

/-- SparseDFA::init_empty for DFA01 (src/dfa.rs). -/
def DFA01.init_empty : DFA01 :=
  { states := [], alphabet := (48, 49), start_state := none, accept_states := ∅ }

/-- HashMap lookup on the state map. -/
def DFA01.lookupState? (dfa : DFA01) (id : Nat) : Option State01 :=
  (dfa.states.find? (fun p => p.1 == id)).map Prod.snd

/-- HashMap::contains_key on the state map, as used by the push checks
of the work loop (dfa.states.keys().contains). -/
def DFA01.containsKey (dfa : DFA01) (id : Nat) : Bool :=
  (dfa.lookupState? id).isSome

/-- HashMap::insert on the state map: replaces the value when the key
exists, appends otherwise.  This is SparseDFA::add_empty_state when
called with State01.new, and the entry write of the work loop. -/
def DFA01.insertState (dfa : DFA01) (id : Nat) (st : State01) : DFA01 :=
  if dfa.containsKey id then
    { dfa with states := dfa.states.map (fun p => if p.1 == id then (id, st) else p) }
  else
    { dfa with states := dfa.states ++ [(id, st)] }

/-- SparseDFA::get_state_by_id for DFA01 (src/dfa.rs): returns the
entry, inserting an empty state first when the id is absent
(HashMap::entry or_insert).  The mutated map is returned alongside. -/
def DFA01.get_state_by_id (dfa : DFA01) (id : Nat) : State01 × DFA01 :=
  match dfa.lookupState? id with
  | some st => (st, dfa)
  | none => (State01.new, dfa.insertState id State01.new)

/-- Value read of get_state_by_id without the insertion side effect:
the entry when present, otherwise the empty state that or_insert would
create.  Used to state the pure successor computation. -/
def DFA01.valueOf (dfa : DFA01) (id : Nat) : State01 :=
  (dfa.lookupState? id).getD State01.new

/-- State01::add_transition (src/dfa.rs): input byte 48 sets the
zero successor, byte 49 the one successor; Rust panics on any other
byte, modelled as no change. -/
def State01.add_transition (st : State01) (input to_ : Nat) : State01 :=
  if input = 48 then { st with zero_to := to_ }
  else if input = 49 then { st with one_to := to_ }
  else st

/-- Entry update combining get_state_by_id with
State01::add_transition, as done on the seeded singleton states. -/
def DFA01.addTransitionAt (dfa : DFA01) (id input to_ : Nat) : DFA01 :=
  let r := dfa.get_state_by_id id
  r.2.insertState id (r.1.add_transition input to_)

/-- encode_subset from src/dfa.rs: fold bitwise or of 1 shifted by each
member index. -/
def encode_subset (subset : List Nat) : Nat :=
  subset.foldl (fun result i => result ||| (1 <<< i)) 0

/-- Bit decomposition of the work loop in DFA01::build_dfa_from_nfa,
with explicit fuel (the Rust loop shifts the encoded subset right until
it is zero, so any fuel above the encoded value suffices): returns the
singleton DFA ids 1 shifted by bit, for every set bit, in ascending bit
order. -/
def decodeBitsF : Nat → Nat → Nat → List Nat
  | 0, _, _ => []
  | fuel + 1, encoded_subset, bit =>
    if encoded_subset = 0 then []
    else
      (if encoded_subset % 2 = 1 then [1 <<< bit] else []) ++
        decodeBitsF fuel (encoded_subset / 2) (bit + 1)

/-- Bit decomposition with proven-sufficient fuel. -/
def decodeSubset (state_id : Nat) : List Nat :=
  decodeBitsF (state_id + 1) state_id 0

/-- Rust Iterator::reduce over successor pairs with the bitwise-or
combinator, with unwrap_or the pair of zeros, from the work loop of
DFA01::build_dfa_from_nfa. -/
def reduceOrPairs : List (Nat × Nat) → Nat × Nat
  | [] => (0, 0)
  | p :: rest => rest.foldl (fun a b => (a.1 ||| b.1, a.2 ||| b.2)) p

/-- Successor computation of the work loop of
DFA01::build_dfa_from_nfa: decompose the popped subset id into its
constituent singleton ids, read each singleton state (get_state_by_id,
whose or_insert mutation is threaded through), and fold the successor
pairs with bitwise or.  Returns the pair (zero successor, one
successor) and the possibly-extended map. -/
def DFA01.subset_successors (dfa : DFA01) (state_id : Nat) : (Nat × Nat) × DFA01 :=
  let subset := decodeSubset state_id
  let r := subset.foldl
    (fun (acc : List (Nat × Nat) × DFA01) id =>
      let g := acc.2.get_state_by_id id
      (acc.1 ++ [(g.1.zero_to, g.1.one_to)], g.2))
    ([], dfa)
  (reduceOrPairs r.1, r.2)

/-- Pure form of the successor computation: the or_insert mutation only
ever inserts the empty state that the default read returns, so the
computed pair depends only on valueOf; this is proved below and used to
state the subset-construction algebra. -/
def DFA01.subsetSuccPure (dfa : DFA01) (state_id : Nat) : Nat × Nat :=
  reduceOrPairs ((decodeSubset state_id).map (fun id => ((dfa.valueOf id).zero_to, (dfa.valueOf id).one_to)))

/-- Work loop of DFA01::build_dfa_from_nfa (src/dfa.rs), fueled: pop a
subset id, compute its successors from its constituent singletons,
store them on the (inserted-or-existing) entry, and push each successor
id that is not yet a key.  Rust pushes the one successor first and the
zero successor second, and pops from the vector end. -/
def dfaWorkLoop : Nat → DFA01 → List Nat → Option DFA01
  | 0, dfa, stack => match stack with | [] => some dfa | _ :: _ => none
  | fuel + 1, dfa, stack =>
    match stack with
    | [] => some dfa
    | state_id :: rest =>
      let r := dfa.subset_successors state_id
      let zero_to := r.1.1
      let one_to := r.1.2
      let dfa := r.2.insertState state_id ⟨zero_to, one_to⟩
      let stack := if dfa.containsKey one_to then rest else one_to :: rest
      let stack := if dfa.containsKey zero_to then stack else zero_to :: stack
      dfaWorkLoop fuel dfa stack

/-- DFA01::search_unreachable_states (src/dfa.rs), fueled: depth-first
search from the start state over the two successors.  get_state_by_id
may insert missing entries, and that mutation persists in the caller,
so the mutated map is returned with the unreachable key set. -/
def dfaUnreachLoop : Nat → DFA01 → List Nat → Finset Nat → Option (DFA01 × Finset Nat)
  | 0, dfa, stack, reachable =>
    (match stack with
     | [] => some (dfa, dfa.states.foldl (fun acc p => if p.1 ∈ reachable then acc else insert p.1 acc) ∅)
     | _ :: _ => none)
  | fuel + 1, dfa, stack, reachable =>
    match stack with
    | [] => some (dfa, dfa.states.foldl (fun acc p => if p.1 ∈ reachable then acc else insert p.1 acc) ∅)
    | state_id :: rest =>
      let reachable := insert state_id reachable
      let g := dfa.get_state_by_id state_id
      let dfa := g.2
      let stack := if g.1.zero_to ∈ reachable then rest else g.1.zero_to :: rest
      let stack := if g.1.one_to ∈ reachable then stack else g.1.one_to :: stack
      dfaUnreachLoop fuel dfa stack reachable

/-- Errors of the DFA construction stage: the too-many-states panic,
the alphabet-is-not-01 panic, the unwrap/index panics on a missing
start state or empty accept list, and fuel exhaustion of the modelled
loops (never hit on the concrete runs below). -/
inductive DfaErr where
  | tooManyStates
  | alphabetNot01
  | missingData
  | outOfFuel
deriving DecidableEq, Repr

/- ===================== NFA (src/nfa.rs) ===================== -/

/-- State mirrors enum State of src/nfa.rs: a state carries either only
epsilon transitions, or only non-epsilon transitions, or is a trap
(Fail) or an accepting sink (Final). -/
inductive State where
  | Epsilon (trans : List Nat)
  | NonEpsilon (trans : List (Nat × Nat))
  | Fail
  | Final
deriving DecidableEq, Repr

/-- NFA mirrors struct NFA of src/nfa.rs; the alphabet HashSet is a
Finset and accept_states keeps the Vec order. -/
structure NFA where
  states : List State
  alphabet : Finset Nat
  start_state : Option Nat
  accept_states : List Nat
deriving DecidableEq

/-- NFA::init_empty from src/nfa.rs. -/
def NFA.init_empty : NFA :=
  { states := [], alphabet := ∅, start_state := none, accept_states := [] }

/-- NFA::add_state from src/nfa.rs: appends the state and returns its
id, the previous length. -/
def NFA.add_state (nfa : NFA) (state : State) : NFA × Nat :=
  ({ nfa with states := nfa.states ++ [state] }, nfa.states.length)

/-- NFA::add_epsilon_state from src/nfa.rs. -/
def NFA.add_epsilon_state (nfa : NFA) : NFA × Nat := nfa.add_state (.Epsilon [])

/-- NFA::add_non_epsilon_state from src/nfa.rs. -/
def NFA.add_non_epsilon_state (nfa : NFA) : NFA × Nat := nfa.add_state (.NonEpsilon [])

/-- NFA::add_fail_state from src/nfa.rs. -/
def NFA.add_fail_state (nfa : NFA) : NFA × Nat := nfa.add_state .Fail

/-- NFA::add_transition from src/nfa.rs: pushes the pair onto a
non-epsilon state and records the input in the alphabet.  Rust panics
when the origin is not a non-epsilon state; the model leaves the NFA
unchanged there (the builder only calls it on non-epsilon states). -/
def NFA.add_transition (nfa : NFA) (from_ input to_ : Nat) : NFA :=
  match nfa.states.getD from_ State.Fail with
  | State.NonEpsilon ts =>
    { nfa with
      states := nfa.states.set from_ (State.NonEpsilon (ts ++ [(input, to_)]))
      alphabet := insert input nfa.alphabet }
  | _ => nfa

/-- NFA::add_epsilon_transition from src/nfa.rs, with the same
panic-as-no-change convention for a non-epsilon origin. -/
def NFA.add_epsilon_transition (nfa : NFA) (from_ to_ : Nat) : NFA :=
  match nfa.states.getD from_ State.Fail with
  | State.Epsilon ts =>
    { nfa with states := nfa.states.set from_ (State.Epsilon (ts ++ [to_])) }
  | _ => nfa

/-- Loop of NFA::epsilon_closure_and_dalta (src/nfa.rs), fueled: pop a
state, append it to the closure vector, push its unseen epsilon targets
(stack discipline of a Rust Vec: last push popped first), and collect
the non-epsilon transitions of non-epsilon members into the target set
(a HashSet, modelled as an insertion-ordered duplicate-free list). -/
def closureDaltaLoop (nfa : NFA) :
    Nat → List Nat → List Nat → List (Nat × Nat) → Option (List Nat × List (Nat × Nat))
  | 0, stack, closure, target =>
    (match stack with | [] => some (closure, target) | _ :: _ => none)
  | fuel + 1, stack, closure, target =>
    match stack with
    | [] => some (closure, target)
    | state :: rest =>
      let closure := closure ++ [state]
      match nfa.states.getD state State.Fail with
      | State.Epsilon ts =>
        closureDaltaLoop nfa fuel
          (ts.foldl (fun st to_ => if to_ ∈ closure then st else to_ :: st) rest)
          closure target
      | State.NonEpsilon ts =>
        closureDaltaLoop nfa fuel rest closure
          (ts.foldl (fun tg tran => if tran ∈ tg then tg else tg ++ [tran]) target)
      | State.Fail => closureDaltaLoop nfa fuel rest closure target
      | State.Final => closureDaltaLoop nfa fuel rest closure target

/-- NFA::epsilon_closure_and_dalta from src/nfa.rs. -/
def NFA.epsilon_closure_and_dalta (nfa : NFA) (state fuel : Nat) :
    Option (List Nat × List (Nat × Nat)) :=
  closureDaltaLoop nfa fuel [state] [] []

/-- Loop of NFA::epsilon_closure_to_non_epsilon (src/nfa.rs), fueled:
the closure is a HashSet here (insert at pop), and every non-epsilon,
Fail or Final member reached is collected into the target set. -/
def closureNonEpsLoop (nfa : NFA) :
    Nat → List Nat → List Nat → List Nat → Option (List Nat)
  | 0, stack, _, target =>
    (match stack with | [] => some target | _ :: _ => none)
  | fuel + 1, stack, closure, target =>
    match stack with
    | [] => some target
    | state :: rest =>
      let closure := if state ∈ closure then closure else closure ++ [state]
      match nfa.states.getD state State.Fail with
      | State.Epsilon ts =>
        closureNonEpsLoop nfa fuel
          (ts.foldl (fun st to_ => if to_ ∈ closure then st else to_ :: st) rest)
          closure target
      | _ =>
        closureNonEpsLoop nfa fuel rest closure
          (if state ∈ target then target else target ++ [state])

/-- NFA::epsilon_closure_to_non_epsilon from src/nfa.rs. -/
def NFA.epsilon_closure_to_non_epsilon (nfa : NFA) (state fuel : Nat) : Option (List Nat) :=
  closureNonEpsLoop nfa fuel [state] [] []

/-- NFA::get_dalta_hat_transitions from src/nfa.rs: take the
non-epsilon transitions reachable through the epsilon closure, then
expand every target through a further closure to its non-epsilon-kind
members, one result pair per concrete member. -/
def NFA.get_dalta_hat_transitions (nfa : NFA) (state fuel : Nat) :
    Option (List (Nat × Nat)) := do
  let r ← nfa.epsilon_closure_and_dalta state fuel
  r.2.foldlM
    (fun result tran => do
      let targets ← nfa.epsilon_closure_to_non_epsilon tran.2 fuel
      pure (result ++ targets.map (fun s => (tran.1, s))))
    []

/-- Loop of NFA::search_unreachable_states (src/nfa.rs), fueled:
depth-first search over non-epsilon edges; a newly inserted state has
all its successors pushed. -/
def nfaUnreachLoop (nfa : NFA) : Nat → List Nat → Finset Nat → Option (Finset Nat)
  | 0, stack, reachable =>
    (match stack with | [] => some reachable | _ :: _ => none)
  | fuel + 1, stack, reachable =>
    match stack with
    | [] => some reachable
    | state :: rest =>
      if state ∈ reachable then nfaUnreachLoop nfa fuel rest reachable
      else
        let reachable := insert state reachable
        match nfa.states.getD state State.Fail with
        | State.NonEpsilon ts =>
          nfaUnreachLoop nfa fuel (ts.foldl (fun st tran => tran.2 :: st) rest) reachable
        | _ => nfaUnreachLoop nfa fuel rest reachable

/-- NFA::search_unreachable_states from src/nfa.rs: complement of the
reachable set inside the state index range.  Rust unwraps the start
state (panic when absent, modelled as none). -/
def NFA.search_unreachable_states (nfa : NFA) (fuel : Nat) : Option (Finset Nat) := do
  match nfa.start_state with
  | none => none
  | some start =>
    let reachable ← nfaUnreachLoop nfa fuel [start] ∅
    pure ((List.range nfa.states.length).foldl
      (fun acc i => if i ∈ reachable then acc else insert i acc) ∅)

/-- Renumbering table built by NFA::remap_states (src/nfa.rs): position
i holds none when state i is a Fail state (dropped), otherwise the
number of earlier non-Fail states, the new contiguous id. -/
def remap_id_map (states : List State) : List (Option Nat) :=
  (states.foldl
    (fun (acc : List (Option Nat) × Nat) state =>
      match state with
      | State.Fail => (acc.1 ++ [none], acc.2)
      | _ => (acc.1 ++ [some acc.2], acc.2 + 1))
    ([], 0)).1

/-- NFA::remap_states with NFA::remap_trans (src/nfa.rs): remap every
non-epsilon transition target through the renumbering table (the Rust
expect panic on a dropped target is modelled as overall none), then
remove the Fail states; start_state and accept_states are left exactly
as they were. -/
def NFA.remap_states (nfa : NFA) : Option NFA := do
  let id_map := remap_id_map nfa.states
  let remapped ← nfa.states.mapM
    (fun state =>
      match state with
      | State.NonEpsilon ts =>
        (ts.mapM (fun tran =>
          (id_map.getD tran.2 none).map (fun new => (tran.1, new)))).map State.NonEpsilon
      | st => some st)
  pure { nfa with states := remapped.filter (fun st => st != State.Fail) }

/-- Comparison-by-input used by NFA::deltas through itertools
sorted_by; the sort is stable, as Rust sort_by is. -/
def leByInput (a b : Nat × Nat) : Prop := a.1 ≤ b.1

instance : DecidableRel leByInput := fun a b => Nat.decLe a.1 b.1

/-- Grouping of consecutive equal inputs in a sorted transition list,
as itertools group_by does inside NFA::deltas. -/
def groupByInput : List (Nat × Nat) → List (Nat × List Nat)
  | [] => []
  | tran :: rest =>
    match groupByInput rest with
    | [] => [(tran.1, [tran.2])]
    | (j, ts) :: grs =>
      if tran.1 = j then (j, tran.2 :: ts) :: grs else (tran.1, [tran.2]) :: (j, ts) :: grs

/-- NFA::deltas from src/nfa.rs: the transitions of a non-epsilon
state, sorted by input and grouped, one group per input byte; any other
state kind yields the empty list. -/
def NFA.deltas (nfa : NFA) (state_id : Nat) : List (Nat × List Nat) :=
  match nfa.states.getD state_id State.Fail with
  | State.NonEpsilon ts => groupByInput (List.insertionSort leByInput ts)
  | _ => []

/-- Builder::build_non_epsilon_nfa from src/nfa.rs, fueled: first give
every old state its new kind (Final when the dalta-hat transition list
is empty and the state is an original accept state, Fail when it is
empty otherwise, non-epsilon else); then add every dalta-hat transition
whose target is not a Fail state of the new NFA, recording inputs in
the new alphabet; copy start_state and the first accept state verbatim
from the old NFA; turn every state unreachable from the start over
non-epsilon edges into Fail; finally renumber through remap_states.
Returns none when the old NFA has no start state or an empty accept
list (Rust unwrap and index panics) or when fuel runs out. -/
def build_non_epsilon_nfa (old_nfa : NFA) (fuel : Nat) : Option NFA := do
  let kinds ← (List.range old_nfa.states.length).mapM
    (fun state_id => do
      let trans ← old_nfa.get_dalta_hat_transitions state_id fuel
      pure (if trans.isEmpty then
              (if state_id ∈ old_nfa.accept_states then State.Final else State.Fail)
            else State.NonEpsilon []))
  let keptTrans ← (List.range old_nfa.states.length).mapM
    (fun state_id => do
      match kinds.getD state_id State.Fail with
      | State.NonEpsilon _ =>
        let trans ← old_nfa.get_dalta_hat_transitions state_id fuel
        pure (trans.filter (fun tran => kinds.getD tran.2 State.Fail != State.Fail))
      | _ => pure [])
  let states2 := (List.range old_nfa.states.length).map
    (fun i =>
      match kinds.getD i State.Fail with
      | State.NonEpsilon _ => State.NonEpsilon (keptTrans.getD i [])
      | k => k)
  let alphabet := keptTrans.foldl
    (fun acc l => l.foldl (fun (acc : Finset Nat) tran => insert tran.1 acc) acc) ∅
  match old_nfa.start_state with
  | none => none
  | some start =>
    match old_nfa.accept_states with
    | [] => none
    | accept0 :: _ =>
      let nfa1 : NFA :=
        { states := states2, alphabet := alphabet
          start_state := some start, accept_states := [accept0] }
      let unreachable ← nfa1.search_unreachable_states fuel
      let states3 := states2.enum.map
        (fun p => if p.1 ∈ unreachable then State.Fail else p.2)
      NFA.remap_states { nfa1 with states := states3 }

/- ===================== Thompson builder (src/nfa.rs) ===================== -/

/-- Hir mirrors the regex-syntax AST node kinds consumed by the
builder: concatenation, alternation, literal byte string, byte-range
class, greedy star repetition (the only repetition the source accepts,
by its assert), capture group, the empty regex, and lookaround. -/
inductive Hir where
  | concat (subs : List Hir)
  | alternation (subs : List Hir)
  | literal (bytes : List Nat)
  | classRanges (ranges : List (Nat × Nat))
  | repetition (sub : Hir)
  | capture (sub : Hir)
  | empty
  | look

/-- Hole mirrors enum Hole of src/nfa.rs. -/
inductive Hole where
  | Alternation (come_from go_to : Nat)
  | Concatenation (come_from go_to : Nat)
  | Repetition (come_from go_to : Nat)
deriving DecidableEq, Repr

/-- Builder mirrors struct Builder of src/nfa.rs; the hole stack has
its top at the list head (a Rust Vec pushes and pops at the end). -/
structure Builder where
  nfa : NFA
  stack : List Hole
deriving DecidableEq

/-- Errors of the builder: the unexpected-Look error and the
stack-is-empty error returned by the visitor (both are strings in the
source). -/
inductive BuildErr where
  | unexpectedLook
  | stackIsEmpty
deriving DecidableEq, Repr

/-- Chain construction of the Literal arm of Builder::visit_pre
(src/nfa.rs): one non-epsilon transition per byte, threading a fresh
state between consecutive bytes and ending at the exit state. -/
def addLiteralChain (nfa : NFA) (current endId : Nat) : List Nat → NFA
  | [] => nfa
  | [c] => nfa.add_transition current c endId
  | c :: c2 :: rest =>
    let r := nfa.add_non_epsilon_state
    addLiteralChain (r.1.add_transition current c r.2) r.2 endId (c2 :: rest)

/-- Builder::visit_pre from src/nfa.rs: allocate the exit state, pop
the hole (a Concatenation hole is re-pushed with the exit as its new
come_from), build the entry and the child holes according to the node
kind, then splice with an epsilon edge from the popped come_from to the
entry, plus the loop-closing and exit edges when the hole was a
Repetition or Alternation hole. -/
def Builder.visit_pre (b : Builder) (hir : Hir) : Except BuildErr Builder :=
  let r1 := b.nfa.add_epsilon_state
  let nfa0 := r1.1
  let endId := r1.2
  match b.stack with
  | [] => .error BuildErr.stackIsEmpty
  | hole :: rest =>
    let popped :=
      match hole with
      | Hole.Concatenation come_from go_to =>
        (come_from, go_to, Hole.Concatenation endId go_to :: rest)
      | Hole.Alternation come_from go_to => (come_from, go_to, rest)
      | Hole.Repetition come_from go_to => (come_from, go_to, rest)
    let come_from := popped.1
    let go_to := popped.2.1
    let stack1 := popped.2.2
    let built : Option (NFA × List Hole × Nat) :=
      match hir with
      | Hir.concat _ =>
        let r := nfa0.add_epsilon_state
        some (r.1, Hole.Concatenation r.2 endId :: stack1, r.2)
      | Hir.alternation subs =>
        let r := nfa0.add_epsilon_state
        some (r.1, List.replicate subs.length (Hole.Alternation r.2 endId) ++ stack1, r.2)
      | Hir.literal bytes =>
        let r := nfa0.add_non_epsilon_state
        some (addLiteralChain r.1 r.2 endId bytes, stack1, r.2)
      | Hir.classRanges ranges =>
        let r := nfa0.add_non_epsilon_state
        let nfa2 := ranges.foldl
          (fun nfa range =>
            (List.range' range.1 (range.2 + 1 - range.1)).foldl
              (fun (nfa : NFA) c => nfa.add_transition r.2 c endId) nfa)
          r.1
        some (nfa2, stack1, r.2)
      | Hir.repetition _ =>
        let r := nfa0.add_epsilon_state
        some (r.1.add_epsilon_transition r.2 endId, Hole.Repetition r.2 endId :: stack1, r.2)
      | Hir.capture _ =>
        let r := nfa0.add_epsilon_state
        some (r.1, Hole.Alternation r.2 endId :: stack1, r.2)
      | Hir.empty =>
        let r := nfa0.add_epsilon_state
        some (r.1.add_epsilon_transition r.2 endId, stack1, r.2)
      | Hir.look => none
    match built with
    | none => .error BuildErr.unexpectedLook
    | some (nfa3, stack2, start) =>
      let nfa4 := nfa3.add_epsilon_transition come_from start
      let nfa5 :=
        match hole with
        | Hole.Repetition _ _ =>
          (nfa4.add_epsilon_transition endId go_to).add_epsilon_transition endId start
        | Hole.Alternation _ _ => nfa4.add_epsilon_transition endId go_to
        | Hole.Concatenation _ _ => nfa4
      .ok { nfa := nfa5, stack := stack2 }

/-- Builder::visit_post from src/nfa.rs: after the children of a
Concat node, pop the stack (the popped value is dropped even when it is
not a Concatenation hole, exactly as the Rust if-let over pop does) and
close the trailing Concatenation hole with an epsilon edge. -/
def Builder.visit_post (b : Builder) (hir : Hir) : Builder :=
  match hir with
  | Hir.concat _ =>
    (match b.stack with
     | [] => b
     | Hole.Concatenation come_from go_to :: rest =>
       { nfa := b.nfa.add_epsilon_transition come_from go_to, stack := rest }
     | _ :: rest => { b with stack := rest })
  | _ => b

/-- Visitor::finish from src/nfa.rs: pop once more and close a leftover
Concatenation hole (the source notes that the root node gets no
visit_post call), then yield the NFA. -/
def Builder.finish (b : Builder) : NFA :=
  match b.stack with
  | Hole.Concatenation come_from go_to :: _ => b.nfa.add_epsilon_transition come_from go_to
  | _ => b.nfa

mutual
/-- Tree walk of regex_syntax hir::visit as used by
Builder::build_nfa_from_re: visit_pre on the node, then the children in
order, then visit_post; the walk aborts on the first error. -/
def visitHir (b : Builder) : Hir → Except BuildErr Builder
  | Hir.concat subs =>
    (b.visit_pre (Hir.concat subs)).bind (fun b =>
      (visitHirList b subs).map (fun b => b.visit_post (Hir.concat subs)))
  | Hir.alternation subs =>
    (b.visit_pre (Hir.alternation subs)).bind (fun b =>
      (visitHirList b subs).map (fun b => b.visit_post (Hir.alternation subs)))
  | Hir.repetition sub =>
    (b.visit_pre (Hir.repetition sub)).bind (fun b =>
      (visitHir b sub).map (fun b => b.visit_post (Hir.repetition sub)))
  | Hir.capture sub =>
    (b.visit_pre (Hir.capture sub)).bind (fun b =>
      (visitHir b sub).map (fun b => b.visit_post (Hir.capture sub)))
  | h =>
    (b.visit_pre h).map (fun b => b.visit_post h)

/-- Children walk of the visitor. -/
def visitHirList (b : Builder) : List Hir → Except BuildErr Builder
  | [] => .ok b
  | h :: rest => (visitHir b h).bind (fun b => visitHirList b rest)
end

/-- Builder::build_nfa_from_re from src/nfa.rs, with the external
regex-text parsing replaced by the already-built AST (the parser is an
external collaborator): allocate the accept sink as a Fail-kind state,
register it as the accept state, allocate the epsilon start state, push
the root Alternation hole, run the visitor, and finish. -/
def build_nfa_from_hir (hir : Hir) : Except BuildErr NFA :=
  let r1 := NFA.init_empty.add_fail_state
  let nfa1 := { r1.1 with accept_states := r1.1.accept_states ++ [r1.2] }
  let r2 := nfa1.add_epsilon_state
  let nfa2 := { r2.1 with start_state := some r2.2 }
  (visitHir { nfa := nfa2, stack := [Hole.Alternation r2.2 r1.2] } hir).map Builder.finish

/- ===================== subset construction entry (src/dfa.rs) ===================== -/

/-- DFA01::build_dfa_from_nfa from src/dfa.rs, fueled: fail on more
than 128 states, fail unless the alphabet is exactly the two bytes 48
and 49, set the start to the singleton subset of the NFA start state,
seed one DFA state per singleton subset from NFA::deltas (pushing every
composite target), run the work stack to its fixed point, remove the
states unreachable from the start, and mark every state whose id meets
the accept bit.  Rust panics on a missing start state or an empty
accept list; both are the missingData error here. -/
def build_dfa_from_nfa (nfa : NFA) (fuel : Nat) : Except DfaErr DFA01 :=
  if nfa.states.length > 128 then .error DfaErr.tooManyStates
  else if nfa.alphabet.card = 2 ∧ 48 ∈ nfa.alphabet ∧ 49 ∈ nfa.alphabet then
    match nfa.start_state with
    | none => .error DfaErr.missingData
    | some start =>
      match nfa.accept_states with
      | [] => .error DfaErr.missingData
      | accept0 :: _ =>
        let dfa0 := { DFA01.init_empty with start_state := some (1 <<< start) }
        let states_directly_from_nfa := (List.range nfa.states.length).map (fun id => 1 <<< id)
        let seeded := (List.range nfa.states.length).foldl
          (fun (acc : DFA01 × List Nat) id =>
            let dfa := acc.1.insertState (1 <<< id) State01.new
            (nfa.deltas id).foldl
              (fun (acc2 : DFA01 × List Nat) d =>
                let to_ := encode_subset d.2
                let dfa2 := acc2.1.addTransitionAt (1 <<< id) d.1 to_
                (dfa2, if to_ ∈ states_directly_from_nfa then acc2.2 else to_ :: acc2.2))
              (dfa, acc.2))
          (dfa0, [])
        match dfaWorkLoop fuel seeded.1 seeded.2 with
        | none => .error DfaErr.outOfFuel
        | some dfa1 =>
          let stack0 := (match dfa1.start_state with | some s => [s] | none => [])
          match dfaUnreachLoop fuel dfa1 stack0 ∅ with
          | none => .error DfaErr.outOfFuel
          | some r =>
            let dfa3 := { r.1 with
              states := r.1.states.filter (fun p => decide (p.1 ∉ r.2)) }
            let accept_bit := 1 <<< accept0
            let accepts := dfa3.states.foldl
              (fun acc p => if p.1 &&& accept_bit ≠ 0 then insert p.1 acc else acc)
              dfa3.accept_states
            .ok { dfa3 with accept_states := accepts }
  else .error DfaErr.alphabetNot01

/- ===================== sparse to dense conversion (src/dfa.rs) ===================== -/

/-- DFA01::states_with_id_iter from src/dfa.rs: the state entries in
ascending id order. -/
def DFA01.sortedStates (dfa : DFA01) : List (Nat × State01) :=
  List.insertionSort (fun a b => a.1 ≤ b.1) dfa.states

/-- DfaConfig::new_from_01 from src/dfa.rs: dense indices 0 upward are
assigned in ascending order of sparse ids.  Rust unwraps the start
state (panic when absent, modelled by the default 0). -/
def DfaConfig.new_from_01 (dfa : DFA01) : DfaConfig :=
  { number_of_states := dfa.states.length
    alphabet := [dfa.alphabet.1, dfa.alphabet.2]
    start_state_id := dfa.start_state.getD 0
    accept_states := dfa.accept_states
    id_map := dfa.sortedStates.enum.map (fun p => (p.2.1, p.1)) }

/-- DenseDFA::build_from_sparse01_dfa from src/dfa.rs: re-emit every
transition of the sparse DFA, in ascending id order, through the
renumbering map, for input byte 48 then input byte 49. -/
def DenseDFA.build_from_sparse01_dfa (sparse_dfa : DFA01) : DenseDFA :=
  let config := DfaConfig.new_from_01 sparse_dfa
  sparse_dfa.sortedStates.enum.foldl
    (fun dense p =>
      let dense := dense.add_transition p.1 48 (lookup0 config.id_map p.2.2.zero_to)
      dense.add_transition p.1 49 (lookup0 config.id_map p.2.2.one_to))
    (DenseDFA.init_with_config config)

/- ===================== pipeline (src/lib.rs) ===================== -/

/-- Errors of re_to_dfa: a builder error, a failure inside epsilon
elimination (unwrap panics or fuel), or a DFA construction error. -/
inductive PipelineErr where
  | builderFailed (e : BuildErr)
  | eliminateFailed
  | dfaFailed (e : DfaErr)
deriving DecidableEq, Repr

/-- re_to_dfa from src/lib.rs: build the epsilon NFA from the AST,
eliminate epsilon transitions, run the subset construction, convert to
the dense form, and return the minimized DFA when minimize finds
groups, the dense DFA itself otherwise. -/
def re_to_dfa (hir : Hir) (fuel : Nat) : Except PipelineErr DenseDFA :=
  match build_nfa_from_hir hir with
  | .error e => .error (PipelineErr.builderFailed e)
  | .ok nfa =>
    match build_non_epsilon_nfa nfa fuel with
    | none => .error PipelineErr.eliminateFailed
    | some non_epsilon_nfa =>
      match build_dfa_from_nfa non_epsilon_nfa fuel with
      | .error e => .error (PipelineErr.dfaFailed e)
      | .ok new_dfa =>
        let newnew_dfa := DenseDFA.build_from_sparse01_dfa new_dfa
        match newnew_dfa.minimize with
        | some minimized => .ok minimized
        | none => .ok newnew_dfa

/- ===================== acceptance (modelled from the spec) ===================== -/

/-- Modelled from the spec: one expansion step of an epsilon closure,
adding every epsilon target of a member.  The spec names
accepts_via_nfa in its testable properties but no acceptance runner
exists under src, so acceptance is modelled from the glossary
definitions of the spec. -/
def epsClosureStep (nfa : NFA) (s : Finset Nat) : Finset Nat :=
  s ∪ s.biUnion (fun st =>
    match nfa.states.getD st State.Fail with
    | State.Epsilon ts => ts.toFinset
    | _ => ∅)

/-- Modelled from the spec: the epsilon closure of a state set, reached
by iterating the expansion step once per state of the NFA (the closure
grows by at least one state per useful step, so this iterate reaches
the fixed point). -/
def epsClosure (nfa : NFA) (s : Finset Nat) : Finset Nat :=
  (epsClosureStep nfa)^[nfa.states.length] s

/-- Modelled from the spec: the one-symbol step of the epsilon NFA, the
set of targets of transitions on the symbol from members of the set. -/
def nfaSymbolStep (nfa : NFA) (s : Finset Nat) (c : Nat) : Finset Nat :=
  s.biUnion (fun st =>
    match nfa.states.getD st State.Fail with
    | State.NonEpsilon ts =>
      (ts.filterMap (fun tran => if tran.1 = c then some tran.2 else none)).toFinset
    | _ => ∅)

/-- Modelled from the spec: accepts_via_nfa of the testable properties,
standard acceptance of an NFA with epsilon transitions, where a word is
accepted when the closure-saturated run set at its end contains an
accept state. -/
def accepts_via_nfa (nfa : NFA) (w : List Nat) : Bool :=
  match nfa.start_state with
  | none => false
  | some st =>
    let endSet := w.foldl (fun s c => epsClosure nfa (nfaSymbolStep nfa s c)) (epsClosure nfa {st})
    nfa.accept_states.any (fun a => decide (a ∈ endSet))

/-- Modelled from the spec: accepts_via_dfa of the testable properties,
running the dense delta from the start state and testing acceptance of
the final state. -/
def accepts_via_dfa (d : DenseDFA) (w : List Nat) : Bool :=
  match d.start_state with
  | none => false
  | some s0 => decide ((w.foldl (fun s c => d.delta s c) s0) ∈ d.accept_states)

/- ===================== concrete inputs ===================== -/

/-- AST of a star over the byte class 48 to 49: the regular expression
matching any word over the binary alphabet, whose language contains the
empty word. -/
def ast01star : Hir := Hir.repetition (Hir.classRanges [(48, 49)])

/- ===== concrete dense DFAs exercising the minimizer ===== -/

/-- Epsilon NFA the builder produces for ast01star. -/
def nfa01star : NFA := (build_nfa_from_hir ast01star).toOption.getD NFA.init_empty

/-- Epsilon-free NFA for ast01star. -/
def nonEps01star : NFA := (build_non_epsilon_nfa nfa01star 32).getD NFA.init_empty

/-- Sparse subset-construction DFA for ast01star.  Its two states carry
the ids 2 and 5, so the empty-subset id 0 is not among its states. -/
def sparse01star : DFA01 :=
  match build_dfa_from_nfa nonEps01star 32 with
  | .ok d => d
  | .error _ => DFA01.init_empty

/-- Dense DFA converted from sparse01star. -/
def dense01star : DenseDFA := DenseDFA.build_from_sparse01_dfa sparse01star

/-- Epsilon NFA the builder produces for the empty regex. -/
def nfaEmptyRe : NFA := (build_nfa_from_hir Hir.empty).toOption.getD NFA.init_empty

/-- Epsilon-free NFA with 129 states (all trap states): the smallest
state count beyond the 128-state ceiling of the subset construction. -/
def nfa129 : NFA :=
  { states := List.replicate 129 State.Fail
    alphabet := ∅
    start_state := some 0
    accept_states := [0] }


/-- Dense DFA with three states over the binary alphabet: state 0 is the
trap, states 1 and 2 are accepting and have no outgoing transitions, so
1 and 2 are indistinguishable and 2 is the highest state index. -/
def d3 : DenseDFA :=
  { alphabet := [48, 49]
    out_transitions := { trans := [0, 0, 0, 0, 0, 0], stride_as_power_of_2 := 1 }
    in_transitions := { trans := [[], [], [], [], [], []], stride_as_power_of_2 := 1 }
    start_state := some 1
    accept_states := insert 1 {2} }

/-- Dense DFA with five states over the binary alphabet: state 0 is the
trap, the non-accepting states 1 and 2 both step to 3 on input byte 48,
and the accepting states 3 and 4 have no outgoing transitions.  Both
pairs 1,2 and 3,4 are indistinguishable, and 3,4 involves the highest
state index. -/
def d5 : DenseDFA :=
  { alphabet := [48, 49]
    out_transitions := { trans := [0, 0, 3, 0, 3, 0, 0, 0, 0, 0], stride_as_power_of_2 := 1 }
    in_transitions :=
      { trans := [[], [], [], [], [], [], [], [], [], []], stride_as_power_of_2 := 1 }
    start_state := some 1
    accept_states := insert 3 {4} }

/-- Invariant of the group list maintained by insert_pair: groups are
nonempty, pairwise disjoint, and contain only states below the given
bound. -/
def GroupsInv (gl : List (Finset Nat)) (B : Nat) : Prop :=
  (∀ g ∈ gl, g.Nonempty) ∧ gl.Pairwise Disjoint ∧ (∀ g ∈ gl, ∀ x ∈ g, x < B)

/- ===== proof-support characterizations for the subset algebra ===== -/

/-- Componentwise bitwise or of successor pairs, the combinator of the
reduce step in the work loop. -/
def pairOr (a b : Nat × Nat) : Nat × Nat := (a.1 ||| b.1, a.2 ||| b.2)

/-- Fold of pairOr over a list starting from the zero pair; equal to
reduceOrPairs, proved below. -/
def listOrPair (l : List (Nat × Nat)) : Nat × Nat := l.foldl pairOr (0, 0)

/-- Bit decomposition with the fuel that always suffices; equal to
decodeSubset at bit zero. -/
def decodeAux (s bit : Nat) : List Nat := decodeBitsF (s + 1) s bit

/-- A concrete sparse DFA that does contain the empty-subset id 0, for
the amended trap-sentinel property. -/
def sparseWithTrap : DFA01 :=
  { states := [(0, ⟨0, 0⟩), (1, ⟨1, 0⟩), (2, ⟨1, 2⟩)]
    alphabet := (48, 49), start_state := some 1, accept_states := {2} }

/- ===================== claim theorems ===================== -/

/-- C1: the claim states that for every regular expression over the
binary alphabet and every word up to a bounded length the epsilon NFA
and the minimal DFA of the full pipeline agree on acceptance.  The code
violates this at the concrete regular expression star of the class 48
to 49 (the AST the parser produces for a star over the binary
alphabet) and the empty word: the epsilon NFA accepts the empty word,
the pipeline succeeds, and its resulting DFA rejects the empty word,
because epsilon elimination only marks states with an empty dalta-hat
transition list as Final and never marks a state whose epsilon closure
merely contains the accept state, so epsilon acceptance is lost. -/
theorem c1_pipeline_drops_epsilon_acceptance :
    build_nfa_from_hir ast01star = Except.ok nfa01star
    ∧ accepts_via_nfa nfa01star [] = true
    ∧ re_to_dfa ast01star 32 = Except.ok dense01star
    ∧ accepts_via_dfa dense01star [] = false :=
  ⟨by decide, by decide, by decide, by decide⟩

/-- C2: the claim states that after the scan every never-marked pair,
including every pair involving the highest state index, lands in one
equivalence group.  The code violates this: PairTable::for_each
iterates rows 0 to table.len() minus 2 and columns up to table.len()
minus 1, but table.len() is the state count minus one, so pairs that
involve the highest state index are never visited.  On the concrete
three-state DFA d3, the pair of states 1 and 2 (2 being the highest
index) is never marked distinguishable, yet the grouping pass returns
zero groups. -/
theorem c2_for_each_skips_highest_index :
    (scanAllPairs d3 (initAcceptMarks d3 (PairTable.new d3.number_of_states))).is_distinguishable 1 2
      = false
    ∧ d3.number_of_states = 3
    ∧ (compute_indistin_state_groups d3).num_of_groups = 0 :=
  ⟨by decide, by decide, by decide⟩

/-- C3: the claim states that the pipeline succeeds on the empty regex
and yields a minimal DFA whose start state is accepting.  The code
violates this: for the Empty AST node every state of the eliminated NFA
is dropped (the accept state is unreachable over non-epsilon edges from
the start), the resulting NFA has an empty alphabet, and
build_dfa_from_nfa fails its alphabet check, so the pipeline aborts
instead of succeeding. -/
theorem c3_empty_regex_pipeline_fails :
    re_to_dfa Hir.empty 32 = Except.error (PipelineErr.dfaFailed DfaErr.alphabetNot01) := by
  decide

/-- C4: the claim states that whenever minimize returns a new DFA, a
second minimize on it returns none.  The code violates this on the
concrete five-state DFA d5: the first pass misses the indistinguishable
pair involving the highest state index (the for_each bound of C2),
merges only the other pair, and the merged DFA still contains an
indistinguishable pair at non-maximal indices, so the second minimize
returns a DFA again. -/
theorem c4_minimize_not_idempotent :
    (DenseDFA.minimize d5).isSome = true
    ∧ ((DenseDFA.minimize d5).bind DenseDFA.minimize).isSome = true :=
  ⟨by decide, by decide⟩

/-- C6: build_dfa_from_nfa on an epsilon-free NFA with more than 128
states, in particular 129, fails with the too-many-states outcome
before any other work, and the typed error is returned directly to the
caller with no retry. -/
theorem c6_too_many_states (nfa : NFA) (fuel : Nat) (h : nfa.states.length > 128) :
    build_dfa_from_nfa nfa fuel = Except.error DfaErr.tooManyStates := by
  unfold build_dfa_from_nfa
  simp [h]

/-- Witness for C6 at the concrete 129-state NFA. -/
theorem c6_too_many_states_witness :
    nfa129.states.length > 128
    ∧ build_dfa_from_nfa nfa129 32 = Except.error DfaErr.tooManyStates :=
  ⟨by decide, c6_too_many_states nfa129 32 (by decide)⟩

theorem pairOr_zero_left (a : Nat × Nat) : pairOr (0, 0) a = a := by
  cases a; simp [pairOr]

theorem pairOr_zero_right (a : Nat × Nat) : pairOr a (0, 0) = a := by
  cases a; simp [pairOr]

theorem pairOr_assoc (a b c : Nat × Nat) : pairOr (pairOr a b) c = pairOr a (pairOr b c) := by
  simp [pairOr, Nat.lor_assoc]

theorem pairOr_comm (a b : Nat × Nat) : pairOr a b = pairOr b a := by
  simp [pairOr, Nat.lor_comm]

theorem pairOr_self (a : Nat × Nat) : pairOr a a = a := by
  cases a; simp [pairOr]

theorem lor_left_comm (a b c : Nat) : a ||| (b ||| c) = b ||| (a ||| c) := by
  rw [← Nat.lor_assoc, Nat.lor_comm a b, Nat.lor_assoc]

theorem pairOr_mix (p1 p2 r1 r2 : Nat × Nat) :
    pairOr (pairOr p1 p2) (pairOr r1 r2) = pairOr (pairOr p1 r1) (pairOr p2 r2) := by
  simp [pairOr, Nat.lor_assoc, lor_left_comm]

theorem foldl_pairOr_init (l : List (Nat × Nat)) (a : Nat × Nat) :
    l.foldl pairOr a = pairOr a (listOrPair l) := by
  induction l generalizing a with
  | nil => exact (pairOr_zero_right a).symm
  | cons b l ih =>
    have hbl : listOrPair (b :: l) = l.foldl pairOr b := by
      simp only [listOrPair, List.foldl_cons, pairOr_zero_left]
    rw [List.foldl_cons, ih (pairOr a b), hbl, ih b, pairOr_assoc]

theorem listOrPair_cons (b : Nat × Nat) (l : List (Nat × Nat)) :
    listOrPair (b :: l) = pairOr b (listOrPair l) := by
  simp only [listOrPair, List.foldl_cons, pairOr_zero_left]
  rw [foldl_pairOr_init]
  rfl

theorem listOrPair_append (l1 l2 : List (Nat × Nat)) :
    listOrPair (l1 ++ l2) = pairOr (listOrPair l1) (listOrPair l2) := by
  simp only [listOrPair, List.foldl_append]
  rw [foldl_pairOr_init]
  rfl

theorem reduceOrPairs_eq (l : List (Nat × Nat)) : reduceOrPairs l = listOrPair l := by
  cases l with
  | nil => rfl
  | cons p rest =>
    show rest.foldl (fun a b => (a.1 ||| b.1, a.2 ||| b.2)) p = _
    rw [listOrPair_cons]
    rw [show (fun (a b : Nat × Nat) => (a.1 ||| b.1, a.2 ||| b.2)) = pairOr from rfl]
    rw [foldl_pairOr_init]

theorem lor_div_two (a b : Nat) : (a ||| b) / 2 = a / 2 ||| b / 2 := by
  apply Nat.eq_of_testBit_eq
  intro i
  simp [Nat.testBit_div_two, Nat.testBit_lor]

theorem lor_eq_zero_iff2 (a b : Nat) : (a ||| b) = 0 ↔ a = 0 ∧ b = 0 := by
  constructor
  · intro h
    refine ⟨?_, ?_⟩ <;>
      · apply Nat.eq_of_testBit_eq
        intro i
        have h2 := Nat.testBit_lor a b i
        rw [h] at h2
        simp [Nat.zero_testBit] at h2 ⊢
        first
          | exact h2.1
          | exact h2.2
  · rintro ⟨rfl, rfl⟩
    simp

theorem lor_mod_two (a b : Nat) : ((a ||| b) % 2 = 1) ↔ (a % 2 = 1 ∨ b % 2 = 1) := by
  have h := Nat.testBit_lor a b 0
  simp only [Nat.testBit_zero] at h
  rcases Nat.mod_two_eq_zero_or_one a with h1 | h1 <;>
    rcases Nat.mod_two_eq_zero_or_one b with h2 | h2 <;>
      simp_all

theorem decodeBitsF_fuel_irrel (s : Nat) :
    ∀ f1 f2 bit, s < f1 → s < f2 → decodeBitsF f1 s bit = decodeBitsF f2 s bit := by
  induction s using Nat.strong_induction_on with
  | _ s ih =>
    intro f1 f2 bit h1 h2
    match f1, h1 with
    | f1 + 1, h1 =>
    match f2, h2 with
    | f2 + 1, h2 =>
    by_cases hs : s = 0
    · simp [decodeBitsF, hs]
    · simp only [decodeBitsF, hs, if_false]
      congr 1
      exact ih (s / 2) (Nat.div_lt_self (Nat.pos_of_ne_zero hs) (by omega)) f1 f2 (bit + 1)
        (by omega) (by omega)

theorem decodeAux_eq (s bit : Nat) :
    decodeAux s bit =
      if s = 0 then []
      else (if s % 2 = 1 then [1 <<< bit] else []) ++ decodeAux (s / 2) (bit + 1) := by
  by_cases hs : s = 0
  · simp [decodeAux, decodeBitsF, hs]
  · simp only [decodeAux, decodeBitsF, hs, if_false]
    congr 1
    exact decodeBitsF_fuel_irrel (s / 2) s (s / 2 + 1) (bit + 1)
      (Nat.div_lt_self (Nat.pos_of_ne_zero hs) (by omega)) (Nat.lt_succ_self _)

theorem decode_or_rec (h : Nat → Nat × Nat) (s bit : Nat) :
    listOrPair ((decodeAux s bit).map h) =
      if s = 0 then (0, 0)
      else pairOr (if s % 2 = 1 then h (1 <<< bit) else (0, 0))
        (listOrPair ((decodeAux (s / 2) (bit + 1)).map h)) := by
  rw [decodeAux_eq]
  by_cases hs : s = 0
  · simp [hs, listOrPair]
  · simp only [hs, if_false, List.map_append, listOrPair_append]
    congr 1
    by_cases hp : s % 2 = 1
    · simp only [hp, if_pos, List.map_cons, List.map_nil]
      rw [listOrPair_cons]
      exact pairOr_zero_right _
    · simp [hp, listOrPair]

theorem decode_zero_or (h : Nat → Nat × Nat) (bit : Nat) :
    listOrPair ((decodeAux 0 bit).map h) = (0, 0) := by
  rw [decode_or_rec]
  simp

theorem decode_map_or (h : Nat → Nat × Nat) :
    ∀ n s1 s2 bit, s1 + s2 ≤ n →
      listOrPair ((decodeAux (s1 ||| s2) bit).map h)
        = pairOr (listOrPair ((decodeAux s1 bit).map h))
            (listOrPair ((decodeAux s2 bit).map h)) := by
  intro n
  induction n with
  | zero =>
    intro s1 s2 bit hle
    have h1 : s1 = 0 := by omega
    have h2 : s2 = 0 := by omega
    subst h1; subst h2
    rw [Nat.zero_or]
    simp only [decode_zero_or]
    rw [pairOr_zero_left]
  | succ n ih =>
    intro s1 s2 bit hle
    by_cases h1 : s1 = 0
    · subst h1
      rw [Nat.zero_or, decode_zero_or, pairOr_zero_left]
    · by_cases h2 : s2 = 0
      · subst h2
        rw [Nat.or_zero, decode_zero_or, pairOr_zero_right]
      · have h12 : ¬ (s1 ||| s2) = 0 := fun hc => h1 ((lor_eq_zero_iff2 s1 s2).mp hc).1
        rw [decode_or_rec h (s1 ||| s2) bit, decode_or_rec h s1 bit, decode_or_rec h s2 bit]
        simp only [h1, h2, h12, if_false]
        rw [lor_div_two]
        have hrec := ih (s1 / 2) (s2 / 2) (bit + 1)
          (by
            have a1 : s1 / 2 < s1 := Nat.div_lt_self (Nat.pos_of_ne_zero h1) (by omega)
            have a2 : s2 / 2 < s2 := Nat.div_lt_self (Nat.pos_of_ne_zero h2) (by omega)
            omega)
        rw [hrec, pairOr_mix]
        congr 1
        rcases Nat.mod_two_eq_zero_or_one s1 with p1 | p1 <;>
          rcases Nat.mod_two_eq_zero_or_one s2 with p2 | p2
        · rw [if_neg (by rw [lor_mod_two]; omega), if_neg (by omega), if_neg (by omega),
            pairOr_zero_left]
        · rw [if_pos (by rw [lor_mod_two]; omega), if_neg (by omega), if_pos p2,
            pairOr_zero_left]
        · rw [if_pos (by rw [lor_mod_two]; omega), if_pos p1, if_neg (by omega),
            pairOr_zero_right]
        · rw [if_pos (by rw [lor_mod_two]; omega), if_pos p1, if_pos p2, pairOr_self]



theorem get_state_by_id_fst (dfa : DFA01) (id : Nat) :
    (dfa.get_state_by_id id).1 = dfa.valueOf id := by
  unfold DFA01.get_state_by_id DFA01.valueOf
  cases h : dfa.lookupState? id <;> simp [h]

theorem valueOf_get_state_by_id (dfa : DFA01) (id x : Nat) :
    ((dfa.get_state_by_id id).2).valueOf x = dfa.valueOf x := by
  unfold DFA01.get_state_by_id
  cases h : dfa.lookupState? id with
  | some st => rfl
  | none =>
    simp only
    have hck : dfa.containsKey id = false := by
      simp [DFA01.containsKey, h]
    unfold DFA01.valueOf DFA01.insertState
    rw [hck]
    simp only [Bool.false_eq_true, if_false]
    unfold DFA01.lookupState? at h ⊢
    rw [List.find?_append]
    cases hx : dfa.states.find? (fun p => p.1 == x) with
    | some p => simp [hx]
    | none =>
      simp only [hx, Option.none_or]
      cases hxy : (((id, State01.new).1 == x) : Bool) <;> simp [List.find?, hxy]
  
theorem subsetFold_spec (ids : List Nat) :
    ∀ (dfa : DFA01) (acc : List (Nat × Nat)),
      (ids.foldl
        (fun (acc2 : List (Nat × Nat) × DFA01) id =>
          let g := acc2.2.get_state_by_id id
          (acc2.1 ++ [(g.1.zero_to, g.1.one_to)], g.2))
        (acc, dfa)).1
        = acc ++ ids.map (fun id => ((dfa.valueOf id).zero_to, (dfa.valueOf id).one_to))
      ∧ ∀ x,
        ((ids.foldl
          (fun (acc2 : List (Nat × Nat) × DFA01) id =>
            let g := acc2.2.get_state_by_id id
            (acc2.1 ++ [(g.1.zero_to, g.1.one_to)], g.2))
          (acc, dfa)).2).valueOf x = dfa.valueOf x := by
  induction ids with
  | nil => intro dfa acc; exact ⟨by simp, fun x => rfl⟩
  | cons id rest ih =>
    intro dfa acc
    simp only [List.foldl_cons]
    have hfst := get_state_by_id_fst dfa id
    have hval := valueOf_get_state_by_id dfa id
    obtain ⟨ih1, ih2⟩ := ih (dfa.get_state_by_id id).2 (acc ++ [((dfa.get_state_by_id id).1.zero_to, (dfa.get_state_by_id id).1.one_to)])
    constructor
    · rw [ih1, hfst]
      rw [List.map_cons, List.append_assoc]
      congr 1
      rw [List.singleton_append]
      congr 1
      exact List.map_congr_left (fun a _ => by rw [hval a])
    · intro x
      rw [ih2 x, hval x]

theorem subset_successors_fst (dfa : DFA01) (sid : Nat) :
    (dfa.subset_successors sid).1 = dfa.subsetSuccPure sid := by
  unfold DFA01.subset_successors DFA01.subsetSuccPure
  simp only
  rw [(subsetFold_spec (decodeSubset sid) dfa []).1]
  rfl

theorem subsetSuccPure_or (dfa : DFA01) (a b : Nat) :
    dfa.subsetSuccPure (a ||| b) = pairOr (dfa.subsetSuccPure a) (dfa.subsetSuccPure b) := by
  unfold DFA01.subsetSuccPure
  rw [reduceOrPairs_eq, reduceOrPairs_eq, reduceOrPairs_eq]
  rw [show decodeSubset (a ||| b) = decodeAux (a ||| b) 0 from rfl,
    show decodeSubset a = decodeAux a 0 from rfl,
    show decodeSubset b = decodeAux b 0 from rfl]
  exact decode_map_or _ (a + b) a b 0 (Nat.le_refl _)

theorem decodeAux_pow2 : ∀ (i bit : Nat), decodeAux (2 ^ i) bit = [1 <<< (bit + i)] := by
  intro i
  induction i with
  | zero =>
    intro bit
    rw [decodeAux_eq]
    norm_num
    rw [decodeAux_eq]
    norm_num
  | succ i ih =>
    intro bit
    rw [decodeAux_eq]
    have hne : ¬ (2 ^ (i + 1) = 0) := Nat.pos_iff_ne_zero.mp (Nat.pos_pow_of_pos _ (by omega))
    have hmod : ¬ (2 ^ (i + 1) % 2 = 1) := by
      rw [pow_succ]
      simp [Nat.mul_mod_left]
    have hdiv : 2 ^ (i + 1) / 2 = 2 ^ i := by
      rw [pow_succ]
      exact Nat.mul_div_cancel _ (by omega)
    rw [if_neg hne, if_neg hmod, hdiv, ih (bit + 1)]
    simp only [List.nil_append]
    rw [show bit + 1 + i = bit + (i + 1) from by omega]

theorem subsetSuccPure_singleton (dfa : DFA01) (i : Nat) :
    dfa.subsetSuccPure (1 <<< i) = ((dfa.valueOf (1 <<< i)).zero_to, (dfa.valueOf (1 <<< i)).one_to) := by
  unfold DFA01.subsetSuccPure
  have h1 : (1 : Nat) <<< i = 2 ^ i := by rw [Nat.shiftLeft_eq, one_mul]
  rw [show decodeSubset (1 <<< i) = decodeAux (1 <<< i) 0 from rfl, h1, decodeAux_pow2]
  simp only [Nat.zero_add, List.map_cons, List.map_nil]
  rw [h1]
  rfl

/-- C7: in the work loop of the subset construction the successor
recorded for a popped subset id is subset_successors, which ors the
on-symbol successors of the constituent singleton subsets; this theorem
states the core subset-construction algebra of the claim: the successor
pair of a union (bitwise or) of subset ids is the componentwise or of
the two successor pairs, and the successor pair of a singleton subset
is exactly the stored successor pair of that singleton state. -/
theorem c7_subset_successors_union :
    (∀ (dfa : DFA01) (a b : Nat),
       (dfa.subset_successors (a ||| b)).1
         = ((dfa.subset_successors a).1.1 ||| (dfa.subset_successors b).1.1,
            (dfa.subset_successors a).1.2 ||| (dfa.subset_successors b).1.2))
    ∧ (∀ (dfa : DFA01) (i : Nat),
       (dfa.subset_successors (1 <<< i)).1
         = ((dfa.valueOf (1 <<< i)).zero_to, (dfa.valueOf (1 <<< i)).one_to)) := by
  constructor
  · intro dfa a b
    rw [subset_successors_fst, subset_successors_fst, subset_successors_fst, subsetSuccPure_or]
    rfl
  · intro dfa i
    rw [subset_successors_fst, subsetSuccPure_singleton]

theorem foldl_preserve {α β : Type} (P : α → Prop) (f : α → β → α)
    (h : ∀ a b, P a → P (f a b)) : ∀ (l : List β) (a : α), P a → P (l.foldl f a) := by
  intro l
  induction l with
  | nil => intro a ha; exact ha
  | cons b rest ih => intro a ha; exact ih (f a b) (h a b ha)

theorem findIdx?_aux_spec {α : Type} (p : α → Bool) (d : α) :
    ∀ (l : List α) (s i : Nat), List.findIdx? p l s = some i →
      s ≤ i ∧ i - s < l.length ∧ p (l.getD (i - s) d) = true := by
  intro l
  induction l with
  | nil => intro s i h; simp [List.findIdx?] at h
  | cons x xs ih =>
    intro s i h
    rw [List.findIdx?_cons] at h
    by_cases hx : p x = true
    · rw [if_pos hx] at h
      cases h
      refine ⟨Nat.le_refl _, by simp, ?_⟩
      simp [hx]
    · rw [if_neg hx] at h
      obtain ⟨h1, h2, h3⟩ := ih (s + 1) i h
      refine ⟨by omega, by simp; omega, ?_⟩
      rw [show i - s = (i - (s + 1)) + 1 from by omega, List.getD_cons_succ]
      exact h3

theorem findIdx?_spec {α : Type} (p : α → Bool) (d : α) (l : List α) (i : Nat)
    (h : List.findIdx? p l = some i) :
    i < l.length ∧ p (l.getD i d) = true := by
  obtain ⟨h1, h2, h3⟩ := findIdx?_aux_spec p d l 0 i h
  rw [Nat.sub_zero] at h2 h3
  exact ⟨h2, h3⟩

theorem findIdx?_none_spec {α : Type} (p : α → Bool) (l : List α)
    (h : List.findIdx? p l = none) : ∀ a ∈ l, p a = false :=
  List.findIdx?_eq_none_iff.mp h

theorem pairwise_disjoint_getD_eraseIdx (gl : List (Finset Nat)) :
    ∀ (i : Nat), i < gl.length → gl.Pairwise Disjoint →
      ∀ a ∈ gl.eraseIdx i, Disjoint a (gl.getD i ∅) := by
  induction gl with
  | nil => intro i hi; simp at hi
  | cons g rest ih =>
    intro i hi hp
    rcases List.pairwise_cons.mp hp with ⟨hg, hrest⟩
    cases i with
    | zero =>
      intro a ha
      simp only [List.eraseIdx] at ha
      rw [List.getD_cons_zero]
      exact (hg a ha).symm
    | succ i =>
      intro a ha
      simp only [List.eraseIdx] at ha
      have hi2 : i < rest.length := by simpa using hi
      rcases List.mem_cons.mp ha with rfl | ha2
      · rw [List.getD_cons_succ, List.getD_eq_getElem rest ∅ hi2]
        exact hg _ (List.getElem_mem hi2)
      · rw [List.getD_cons_succ]
        exact ih i hi2 hrest a ha2

theorem disjoint_foldr_union (g : Finset Nat) (gl : List (Finset Nat))
    (h : ∀ a ∈ gl, Disjoint g a) : Disjoint g (gl.foldr (· ∪ ·) ∅) := by
  induction gl with
  | nil => simp
  | cons b rest ih =>
    simp only [List.foldr_cons]
    rw [Finset.disjoint_union_right]
    exact ⟨h b (by simp), ih (fun a ha => h a (List.mem_cons_of_mem b ha))⟩

theorem sum_card_eq_card_union (gl : List (Finset Nat)) (hp : gl.Pairwise Disjoint) :
    (gl.map Finset.card).sum = (gl.foldr (· ∪ ·) ∅).card := by
  induction gl with
  | nil => simp
  | cons g rest ih =>
    rcases List.pairwise_cons.mp hp with ⟨hg, hrest⟩
    simp only [List.map_cons, List.sum_cons, List.foldr_cons]
    rw [Finset.card_union_of_disjoint (disjoint_foldr_union g rest hg), ih hrest]

theorem foldr_union_subset_range (gl : List (Finset Nat)) (B : Nat)
    (hb : ∀ g ∈ gl, ∀ x ∈ g, x < B) : gl.foldr (· ∪ ·) ∅ ⊆ Finset.range B := by
  induction gl with
  | nil => simp
  | cons g rest ih =>
    simp only [List.foldr_cons]
    intro x hx
    rcases Finset.mem_union.mp hx with hx | hx
    · exact Finset.mem_range.mpr (hb g (by simp) x hx)
    · exact ih (fun g2 hg2 => hb g2 (List.mem_cons_of_mem g hg2)) hx

theorem sum_card_le_bound (gl : List (Finset Nat)) (B : Nat)
    (hp : gl.Pairwise Disjoint) (hb : ∀ g ∈ gl, ∀ x ∈ g, x < B) :
    (gl.map Finset.card).sum ≤ B := by
  rw [sum_card_eq_card_union gl hp]
  calc (gl.foldr (· ∪ ·) ∅).card ≤ (Finset.range B).card :=
        Finset.card_le_card (foldr_union_subset_range gl B hb)
    _ = B := Finset.card_range B

theorem length_le_sum_card (gl : List (Finset Nat)) (hne : ∀ g ∈ gl, g.Nonempty) :
    gl.length ≤ (gl.map Finset.card).sum := by
  induction gl with
  | nil => simp
  | cons g rest ih =>
    simp only [List.map_cons, List.sum_cons, List.length_cons]
    have h1 : 1 ≤ g.card := Finset.card_pos.mpr (hne g (by simp))
    have h2 := ih (fun g2 hg2 => hne g2 (List.mem_cons_of_mem g hg2))
    omega



theorem foldl_preserve_mem {α β : Type} (P : α → Prop) (f : α → β → α) (l : List β)
    (h : ∀ a b, b ∈ l → P a → P (f a b)) : ∀ a, P a → P (l.foldl f a) := by
  induction l with
  | nil => intro a ha; exact ha
  | cons b rest ih =>
    intro a ha
    exact ih (fun a2 b2 hb2 => h a2 b2 (List.mem_cons_of_mem b hb2)) (f a b)
      (h a b (by simp) ha)

theorem setCell_table_length (t : PairTable) (r c : Nat) (p : StatePair) :
    (t.setCell r c p).table.length = t.table.length := by
  simp [PairTable.setCell]

theorem markDistin_table_length (t : PairTable) (a b : Nat) :
    (t.markDistin a b).table.length = t.table.length := setCell_table_length ..

theorem clearAssoc_table_length (t : PairTable) (a b : Nat) :
    (t.clearAssoc a b).table.length = t.table.length := setCell_table_length ..

theorem add_relation_table_length (t : PairTable) (a b c e : Nat) :
    (t.add_relation a b c e).table.length = t.table.length := setCell_table_length ..

theorem distinguishList_table_length
    (f : PairTable → Nat → Nat → Option (PairTable × Nat))
    (hf : ∀ t a b r, f t a b = some r → r.1.table.length = t.table.length) :
    ∀ (l : List (Nat × Nat)) (t : PairTable) (r : PairTable × Nat),
      distinguishList f t l = some r → r.1.table.length = t.table.length := by
  intro l
  induction l with
  | nil =>
    intro t r h
    simp only [distinguishList] at h
    cases h
    rfl
  | cons q rest ih =>
    intro t r h
    simp only [distinguishList, Option.bind_eq_bind, Option.bind_eq_some] at h
    obtain ⟨r1, hr1, h2⟩ := h
    simp only [Option.map_eq_some'] at h2
    obtain ⟨r2, hr2, hr2e⟩ := h2
    rw [← hr2e]
    simp only
    rw [ih r1.1 r2 hr2, hf t q.1 q.2 r1 hr1]

theorem distinguishC_table_length :
    ∀ (fuel : Nat) (t : PairTable) (a b : Nat) (r : PairTable × Nat),
      distinguishC fuel t a b = some r → r.1.table.length = t.table.length := by
  intro fuel
  induction fuel with
  | zero => intro t a b r h; simp [distinguishC] at h
  | succ fuel ih =>
    intro t a b r h
    simp only [distinguishC] at h
    by_cases ha : ((t.markDistin (order_pair a b).1 (order_pair a b).2).cell
        (order_pair a b).1 (order_pair a b).2).associated = []
    · rw [if_pos ha] at h
      cases h
      exact markDistin_table_length ..
    · rw [if_neg ha] at h
      simp only [Option.map_eq_some'] at h
      obtain ⟨r2, hr2, hr2e⟩ := h
      rw [← hr2e]
      simp only
      rw [distinguishList_table_length (distinguishC fuel) ih _ _ _ hr2,
        clearAssoc_table_length, markDistin_table_length]

theorem distinguish_table_length (t : PairTable) (a b : Nat) :
    (t.distinguish a b).table.length = t.table.length := by
  unfold PairTable.distinguish
  cases h : distinguishC (t.totalAssoc + 1) t a b with
  | none => rfl
  | some r => exact distinguishC_table_length _ _ _ _ _ h

theorem scanInputs_table_length (d : DenseDFA) (s1 s2 : Nat) :
    ∀ (inputs : List Nat) (t : PairTable) (temp : List (Nat × Nat)),
      (scanInputs d s1 s2 t inputs temp).1.table.length = t.table.length := by
  intro inputs
  induction inputs with
  | nil => intro t temp; rfl
  | cons input rest ih =>
    intro t temp
    simp only [scanInputs]
    by_cases h1 : d.delta s1 input = d.delta s2 input
    · rw [if_pos h1]; exact ih t temp
    · rw [if_neg h1]
      by_cases h2 : t.is_distinguishable (d.delta s1 input) (d.delta s2 input) = true
      · rw [if_pos h2]
        exact distinguish_table_length t s1 s2
      · rw [if_neg h2]
        exact ih t _

theorem scanPair_table_length (d : DenseDFA) (t : PairTable) (s1 s2 : Nat) :
    (scanPair d t s1 s2).table.length = t.table.length := by
  unfold scanPair
  by_cases h1 : t.is_distinguishable s1 s2 = true
  · rw [if_pos h1]
  · rw [if_neg h1]
    simp only
    by_cases h2 : (scanInputs d s1 s2 t d.alphabet []).1.is_distinguishable s1 s2 = true
    · rw [if_pos h2]
      exact scanInputs_table_length ..
    · rw [if_neg h2]
      have hbase := scanInputs_table_length d s1 s2 d.alphabet t []
      exact foldl_preserve (fun (t2 : PairTable) => t2.table.length = t.table.length)
        (fun (t2 : PairTable) (q : Nat × Nat) => t2.add_relation q.1 q.2 s1 s2)
        (fun a b hP => by
          show (a.add_relation b.1 b.2 s1 s2).table.length = t.table.length
          rw [add_relation_table_length]
          exact hP)
        _ _ hbase

theorem scanAllPairs_table_length (d : DenseDFA) (t : PairTable) :
    (scanAllPairs d t).table.length = t.table.length := by
  unfold scanAllPairs
  refine foldl_preserve (fun (t2 : PairTable) => t2.table.length = t.table.length) _ ?_ _ _ rfl
  intro t2 s1 h
  refine foldl_preserve (fun (t3 : PairTable) => t3.table.length = t.table.length) _ ?_ _ _ h
  intro t3 s2 h2
  rw [scanPair_table_length]
  exact h2

theorem initAcceptMarks_table_length (d : DenseDFA) (t : PairTable) :
    (initAcceptMarks d t).table.length = t.table.length := by
  unfold initAcceptMarks
  refine foldl_preserve (fun (t2 : PairTable) => t2.table.length = t.table.length) _ ?_ _ _ rfl
  intro t2 s1 h
  by_cases hs : s1 ∈ d.accept_states
  · rw [if_pos hs]
    refine foldl_preserve (fun (t3 : PairTable) => t3.table.length = t.table.length) _ ?_ _ _ h
    intro t3 s2 h2
    by_cases hs2 : s2 ∈ d.accept_states
    · rw [if_pos hs2]; exact h2
    · rw [if_neg hs2]
      rw [markDistin_table_length]
      exact h2
  · rw [if_neg hs]
    exact h

theorem pairTable_new_length (n : Nat) : (PairTable.new n).table.length = n - 1 := by
  simp [PairTable.new]



theorem find?_range'_eq_some (p : Nat → Bool) :
    ∀ (n s k : Nat), s ≤ k → k < s + n → p k = true →
      (∀ j, s ≤ j → j < k → p j = false) →
      (List.range' s n).find? p = some k := by
  intro n
  induction n with
  | zero => intro s k h1 h2; omega
  | succ n ih =>
    intro s k h1 h2 hp hmin
    rw [List.range'_succ]
    rcases Nat.eq_or_lt_of_le h1 with rfl | hlt
    · rw [List.find?_cons_of_pos _ hp]
    · rw [List.find?_cons_of_neg _ (by simp [hmin s (Nat.le_refl s) hlt])]
      exact ih (s + 1) k hlt (by omega) hp (fun j hj1 hj2 => hmin j (by omega) hj2)

theorem next_power_of_two_pow (n : Nat) : ∃ k, next_power_of_two n = 2 ^ k := by
  unfold next_power_of_two
  cases hf : ((List.range (n + 1)).map (fun k => 2 ^ k)).find? (fun p => n ≤ p) with
  | none => exact ⟨0, rfl⟩
  | some p =>
    have hmem := List.mem_of_find?_eq_some hf
    rw [List.mem_map] at hmem
    obtain ⟨k, _, hk⟩ := hmem
    exact ⟨k, by simp [hk.symm]⟩

theorem pow2_exponent_pow (k : Nat) : pow2_exponent (2 ^ k) = k := by
  unfold pow2_exponent
  have hfind : (List.range (2 ^ k + 1)).find? (fun j => 2 ^ j == 2 ^ k) = some k := by
    rw [List.range_eq_range']
    refine find?_range'_eq_some _ (2 ^ k + 1) 0 k (Nat.zero_le k) ?_ (by simp) ?_
    · have := Nat.lt_two_pow k
      omega
    · intro j hj1 hj2
      have hlt : 2 ^ j < 2 ^ k := Nat.pow_lt_pow_right (by omega) hj2
      simp
      omega
  rw [hfind]
  rfl

theorem newNat_number_of_states (c len : Nat) :
    (Transisions.newNat c len).number_of_states = c := by
  unfold Transisions.newNat Transisions.number_of_states
  obtain ⟨k, hk⟩ := next_power_of_two_pow len
  simp only [hk, List.length_replicate, pow2_exponent_pow, Nat.shiftRight_eq_div_pow]
  exact Nat.mul_div_cancel c (Nat.pos_pow_of_pos k (by omega))

theorem init_with_config_number_of_states (config : DfaConfig) :
    (DenseDFA.init_with_config config).number_of_states = config.number_of_states := by
  unfold DenseDFA.init_with_config DenseDFA.number_of_states
  exact newNat_number_of_states ..

theorem add_transition_number_of_states (d : DenseDFA) (a b c : Nat) :
    (d.add_transition a b c).number_of_states = d.number_of_states := by
  simp [DenseDFA.add_transition, DenseDFA.number_of_states, Transisions.number_of_states,
    List.length_set]

theorem build_from_sparse_count (s : DFA01) :
    (DenseDFA.build_from_sparse01_dfa s).number_of_states = s.states.length := by
  unfold DenseDFA.build_from_sparse01_dfa
  have hinit := init_with_config_number_of_states (DfaConfig.new_from_01 s)
  refine foldl_preserve
    (fun (dd : DenseDFA) => dd.number_of_states = s.states.length)
    (fun (dense : DenseDFA) (p : Nat × (Nat × State01)) =>
      (dense.add_transition p.1 48 (lookup0 (DfaConfig.new_from_01 s).id_map p.2.2.zero_to)).add_transition
        p.1 49 (lookup0 (DfaConfig.new_from_01 s).id_map p.2.2.one_to))
    (fun a b hP => by
      show ((a.add_transition _ 48 _).add_transition _ 49 _).number_of_states = _
      rw [add_transition_number_of_states, add_transition_number_of_states]
      exact hP)
    _ _ ?_
  show (DenseDFA.init_with_config (DfaConfig.new_from_01 s)).number_of_states = s.states.length
  rw [hinit]
  rfl




theorem order_pair_lt (s1 s2 B : Nat) (h1 : s1 < B) (h2 : s2 < B) :
    (order_pair s1 s2).1 < B ∧ (order_pair s1 s2).2 < B := by
  unfold order_pair
  by_cases h : s1 < s2
  · rw [if_pos h]; exact ⟨h1, h2⟩
  · rw [if_neg h]; exact ⟨h2, h1⟩

theorem pairwise_getElem_disjoint {gl : List (Finset Nat)} (hp : gl.Pairwise Disjoint)
    (i j : Nat) (hi : i < gl.length) (hj : j < gl.length) (hij : i ≠ j) :
    Disjoint gl[i] gl[j] := by
  rcases Nat.lt_or_ge i j with h | h
  · exact List.pairwise_iff_getElem.mp hp i j hi hj h
  · have : j < i := by omega
    exact (List.pairwise_iff_getElem.mp hp j i hj hi this).symm

theorem ip_eq_none_none (g : IndistinGroups) (s1 s2 : Nat)
    (hf1 : g.groups.findIdx? (fun grp => decide ((order_pair s1 s2).1 ∈ grp)) = none)
    (hf2 : g.groups.findIdx? (fun grp => decide ((order_pair s1 s2).2 ∈ grp)) = none) :
    (g.insert_pair s1 s2).groups
      = g.groups ++ [insert (order_pair s1 s2).1 {(order_pair s1 s2).2}] := by
  simp only [IndistinGroups.insert_pair, hf1, hf2]

theorem ip_eq_some_none (g : IndistinGroups) (s1 s2 : Nat) (i1 : Nat)
    (hf1 : g.groups.findIdx? (fun grp => decide ((order_pair s1 s2).1 ∈ grp)) = some i1)
    (hf2 : g.groups.findIdx? (fun grp => decide ((order_pair s1 s2).2 ∈ grp)) = none) :
    (g.insert_pair s1 s2).groups
      = g.groups.set i1 (insert (order_pair s1 s2).2 (g.groups.getD i1 ∅)) := by
  simp only [IndistinGroups.insert_pair, hf1, hf2]

theorem ip_eq_none_some (g : IndistinGroups) (s1 s2 : Nat) (i2 : Nat)
    (hf1 : g.groups.findIdx? (fun grp => decide ((order_pair s1 s2).1 ∈ grp)) = none)
    (hf2 : g.groups.findIdx? (fun grp => decide ((order_pair s1 s2).2 ∈ grp)) = some i2) :
    (g.insert_pair s1 s2).groups
      = g.groups.set i2 (insert (order_pair s1 s2).1 (g.groups.getD i2 ∅)) := by
  simp only [IndistinGroups.insert_pair, hf1, hf2]

theorem ip_eq_some_some (g : IndistinGroups) (s1 s2 : Nat) (i1 i2 : Nat) (hne : ¬ i1 = i2)
    (hf1 : g.groups.findIdx? (fun grp => decide ((order_pair s1 s2).1 ∈ grp)) = some i1)
    (hf2 : g.groups.findIdx? (fun grp => decide ((order_pair s1 s2).2 ∈ grp)) = some i2) :
    (g.insert_pair s1 s2).groups
      = (g.groups.eraseIdx i1).eraseIdx i2
          ++ [g.groups.getD i1 ∅ ∪ (g.groups.eraseIdx i1).getD i2 ∅] := by
  simp only [IndistinGroups.insert_pair, hf1, hf2, hne, if_false]

theorem ip_eq_same (g : IndistinGroups) (s1 s2 : Nat) (i1 : Nat)
    (hf1 : g.groups.findIdx? (fun grp => decide ((order_pair s1 s2).1 ∈ grp)) = some i1)
    (hf2 : g.groups.findIdx? (fun grp => decide ((order_pair s1 s2).2 ∈ grp)) = some i1) :
    (g.insert_pair s1 s2).groups = g.groups := by
  simp only [IndistinGroups.insert_pair, hf1, hf2, if_pos]

theorem groupsInv_append_fresh (gl : List (Finset Nat)) (B a b : Nat)
    (ha : a < B) (hb2 : b < B)
    (hanot : ∀ g ∈ gl, a ∉ g) (hbnot : ∀ g ∈ gl, b ∉ g)
    (hinv : GroupsInv gl B) : GroupsInv (gl ++ [insert a {b}]) B := by
  obtain ⟨hne, hp, hb⟩ := hinv
  refine ⟨?_, ?_, ?_⟩
  · intro g2 hg2
    rcases List.mem_append.mp hg2 with hg2 | hg2
    · exact hne g2 hg2
    · simp only [List.mem_singleton] at hg2
      subst hg2
      exact Finset.insert_nonempty ..
  · rw [List.pairwise_append]
    refine ⟨hp, List.pairwise_singleton _ _, ?_⟩
    intro x hx y hy
    simp only [List.mem_singleton] at hy
    subst hy
    rw [Finset.disjoint_insert_right, Finset.disjoint_singleton_right]
    exact ⟨hanot x hx, hbnot x hx⟩
  · intro g2 hg2 x hx
    rcases List.mem_append.mp hg2 with hg2 | hg2
    · exact hb g2 hg2 x hx
    · simp only [List.mem_singleton] at hg2
      subst hg2
      rcases Finset.mem_insert.mp hx with rfl | hx2
      · exact ha
      · rw [Finset.mem_singleton] at hx2
        subst hx2
        exact hb2

theorem groupsInv_set_insert (gl : List (Finset Nat)) (B i x : Nat)
    (hi : i < gl.length) (hx : x < B) (hxnot : ∀ g ∈ gl, x ∉ g)
    (hinv : GroupsInv gl B) : GroupsInv (gl.set i (insert x (gl.getD i ∅))) B := by
  obtain ⟨hne, hp, hb⟩ := hinv
  have hgdmem : gl[i] ∈ gl := List.getElem_mem hi
  refine ⟨?_, ?_, ?_⟩
  · intro g2 hg2
    rcases List.mem_or_eq_of_mem_set hg2 with hg2 | hg2
    · exact hne g2 hg2
    · subst hg2
      exact Finset.insert_nonempty ..
  · rw [List.pairwise_iff_getElem]
    intro j k hj hk hjk
    rw [List.length_set] at hj hk
    have e1 := List.getElem_set (l := gl) (m := i) (n := j)
      (a := insert x (gl.getD i ∅)) (by simpa using hj)
    have e2 := List.getElem_set (l := gl) (m := i) (n := k)
      (a := insert x (gl.getD i ∅)) (by simpa using hk)
    rw [e1, e2]
    by_cases hij : i = j
    · rw [if_pos hij, if_neg (by omega)]
      rw [Finset.disjoint_insert_left]
      refine ⟨hxnot _ (List.getElem_mem hk), ?_⟩
      simp only [List.getD_eq_getElem _ _ hi]
      exact pairwise_getElem_disjoint hp i k hi hk (by omega)
    · rw [if_neg hij]
      by_cases hik : i = k
      · rw [if_pos hik]
        rw [Finset.disjoint_insert_right]
        refine ⟨hxnot _ (List.getElem_mem hj), ?_⟩
        simp only [List.getD_eq_getElem _ _ hi]
        exact pairwise_getElem_disjoint hp j i hj hi (by omega)
      · rw [if_neg hik]
        exact pairwise_getElem_disjoint hp j k hj hk (by omega)
  · intro g2 hg2 y hy
    rcases List.mem_or_eq_of_mem_set hg2 with hg2 | hg2
    · exact hb g2 hg2 y hy
    · subst hg2
      rcases Finset.mem_insert.mp hy with rfl | hy2
      · exact hx
      · rw [List.getD_eq_getElem _ _ hi] at hy2
        exact hb _ hgdmem y hy2

theorem groupsInv_merge (gl : List (Finset Nat)) (B i1 i2 : Nat)
    (hi1 : i1 < gl.length)
    (hinv : GroupsInv gl B) :
    GroupsInv ((gl.eraseIdx i1).eraseIdx i2
      ++ [gl.getD i1 ∅ ∪ (gl.eraseIdx i1).getD i2 ∅]) B := by
  obtain ⟨hne, hp, hb⟩ := hinv
  have hsub1 : (gl.eraseIdx i1).Sublist gl := List.eraseIdx_sublist ..
  have hsub2 : ((gl.eraseIdx i1).eraseIdx i2).Sublist (gl.eraseIdx i1) :=
    List.eraseIdx_sublist ..
  have hp1 : (gl.eraseIdx i1).Pairwise Disjoint := hp.sublist hsub1
  have hp2 : ((gl.eraseIdx i1).eraseIdx i2).Pairwise Disjoint := hp1.sublist hsub2
  have hg1mem : gl.getD i1 ∅ ∈ gl := by
    rw [List.getD_eq_getElem _ _ hi1]
    exact List.getElem_mem hi1
  have hg2cases : (gl.eraseIdx i1).getD i2 ∅ ∈ gl.eraseIdx i1 ∨
      (gl.eraseIdx i1).getD i2 ∅ = ∅ := by
    by_cases h : i2 < (gl.eraseIdx i1).length
    · left
      rw [List.getD_eq_getElem _ _ h]
      exact List.getElem_mem h
    · right
      exact List.getD_eq_default _ _ (by omega)
  refine ⟨?_, ?_, ?_⟩
  · intro g2 hg2
    rcases List.mem_append.mp hg2 with hg2 | hg2
    · exact hne g2 (hsub1.mem (hsub2.mem hg2))
    · simp only [List.mem_singleton] at hg2
      subst hg2
      exact Finset.Nonempty.inl (hne _ hg1mem)
  · rw [List.pairwise_append]
    refine ⟨hp2, List.pairwise_singleton _ _, ?_⟩
    intro x hx y hy
    simp only [List.mem_singleton] at hy
    subst hy
    rw [Finset.disjoint_union_right]
    constructor
    · exact pairwise_disjoint_getD_eraseIdx gl i1 hi1 hp x (hsub2.mem hx)
    · rcases hg2cases with hcase | hcase
      · by_cases h : i2 < (gl.eraseIdx i1).length
        · exact pairwise_disjoint_getD_eraseIdx (gl.eraseIdx i1) i2 h hp1 x hx
        · rw [List.getD_eq_default _ _ (by omega)]
          exact Finset.disjoint_empty_right x
      · rw [hcase]
        exact Finset.disjoint_empty_right x
  · intro g2 hg2 y hy
    rcases List.mem_append.mp hg2 with hg2 | hg2
    · exact hb g2 (hsub1.mem (hsub2.mem hg2)) y hy
    · simp only [List.mem_singleton] at hg2
      subst hg2
      rcases Finset.mem_union.mp hy with hy | hy
      · exact hb _ hg1mem y hy
      · rcases hg2cases with hcase | hcase
        · exact hb _ (hsub1.mem hcase) y hy
        · rw [hcase] at hy
          simp at hy

theorem insert_pair_inv (B : Nat) (g : IndistinGroups) (s1 s2 : Nat)
    (h1 : s1 < B) (h2 : s2 < B) (hinv : GroupsInv g.groups B) :
    GroupsInv (g.insert_pair s1 s2).groups B := by
  obtain ⟨ha, hbb⟩ := order_pair_lt s1 s2 B h1 h2
  cases hf1 : g.groups.findIdx? (fun grp => decide ((order_pair s1 s2).1 ∈ grp)) with
  | none =>
    cases hf2 : g.groups.findIdx? (fun grp => decide ((order_pair s1 s2).2 ∈ grp)) with
    | none =>
      rw [show GroupsInv (g.insert_pair s1 s2).groups B =
          GroupsInv (g.groups ++ [insert (order_pair s1 s2).1 {(order_pair s1 s2).2}]) B from by
        rw [ip_eq_none_none g s1 s2 hf1 hf2]]
      refine groupsInv_append_fresh g.groups B _ _ ha hbb ?_ ?_ hinv
      · intro x hx
        have := findIdx?_none_spec _ _ hf1 x hx
        simpa using this
      · intro x hx
        have := findIdx?_none_spec _ _ hf2 x hx
        simpa using this
    | some i2 =>
      rw [show GroupsInv (g.insert_pair s1 s2).groups B =
          GroupsInv (g.groups.set i2 (insert (order_pair s1 s2).1 (g.groups.getD i2 ∅))) B from by
        rw [ip_eq_none_some g s1 s2 i2 hf1 hf2]]
      obtain ⟨hi2, _⟩ := findIdx?_spec _ ∅ _ _ hf2
      refine groupsInv_set_insert g.groups B i2 _ hi2 ha ?_ hinv
      intro x hx
      have := findIdx?_none_spec _ _ hf1 x hx
      simpa using this
  | some i1 =>
    obtain ⟨hi1, _⟩ := findIdx?_spec _ ∅ _ _ hf1
    cases hf2 : g.groups.findIdx? (fun grp => decide ((order_pair s1 s2).2 ∈ grp)) with
    | none =>
      rw [show GroupsInv (g.insert_pair s1 s2).groups B =
          GroupsInv (g.groups.set i1 (insert (order_pair s1 s2).2 (g.groups.getD i1 ∅))) B from by
        rw [ip_eq_some_none g s1 s2 i1 hf1 hf2]]
      refine groupsInv_set_insert g.groups B i1 _ hi1 hbb ?_ hinv
      intro x hx
      have := findIdx?_none_spec _ _ hf2 x hx
      simpa using this
    | some i2 =>
      by_cases hii : i1 = i2
      · subst hii
        rw [show GroupsInv (g.insert_pair s1 s2).groups B = GroupsInv g.groups B from by
          rw [ip_eq_same g s1 s2 i1 hf1 hf2]]
        exact hinv
      · rw [show GroupsInv (g.insert_pair s1 s2).groups B =
            GroupsInv ((g.groups.eraseIdx i1).eraseIdx i2
              ++ [g.groups.getD i1 ∅ ∪ (g.groups.eraseIdx i1).getD i2 ∅]) B from by
          rw [ip_eq_some_some g s1 s2 i1 i2 hii hf1 hf2]]
        exact groupsInv_merge g.groups B i1 i2 hi1 hinv

theorem compute_groups_inv (d : DenseDFA) :
    GroupsInv (compute_indistin_state_groups d).groups d.number_of_states := by
  have hm : (scanAllPairs d (initAcceptMarks d (PairTable.new d.number_of_states))).table.length
      = d.number_of_states - 1 := by
    rw [scanAllPairs_table_length, initAcceptMarks_table_length, pairTable_new_length]
  unfold compute_indistin_state_groups
  simp only
  rw [hm]
  refine foldl_preserve_mem (fun (g : IndistinGroups) => GroupsInv g.groups d.number_of_states)
    _ _ ?_ _ ⟨by simp, by simp, by simp⟩
  intro g s1 hs1 hg
  have hs1lt : s1 < d.number_of_states - 1 - 1 := List.mem_range.mp hs1
  refine foldl_preserve_mem (fun (g : IndistinGroups) => GroupsInv g.groups d.number_of_states)
    _ _ ?_ _ hg
  intro g2 s2 hs2 hg2
  have hs2lt := List.mem_range'_1.mp hs2
  by_cases hd : ((scanAllPairs d (initAcceptMarks d (PairTable.new d.number_of_states))).cell s1 s2).distinguishable = true
  · rw [if_pos hd]
    exact hg2
  · rw [if_neg hd]
    exact insert_pair_inv _ g2 s1 s2 (by omega) (by omega) hg2

theorem minimize_number_of_states (d m : DenseDFA) (h : d.minimize = some m) :
    m.number_of_states ≤ d.number_of_states := by
  unfold DenseDFA.minimize at h
  by_cases hg : (compute_indistin_state_groups d).num_of_groups = 0
  · rw [if_pos hg] at h
    cases h
  · rw [if_neg hg] at h
    simp only [Option.some.injEq] at h
    obtain ⟨hne, hp, hb⟩ := compute_groups_inv d
    have hG : (compute_indistin_state_groups d).num_of_groups
        ≤ (compute_indistin_state_groups d).num_of_indistin_states :=
      length_le_sum_card _ hne
    have hI : (compute_indistin_state_groups d).num_of_indistin_states ≤ d.number_of_states :=
      sum_card_le_bound _ _ hp hb
    have hcount : m.number_of_states
        = (DfaConfig.new_for_minimize d (compute_indistin_state_groups d)).number_of_states := by
      rw [← h]
      refine foldl_preserve
        (fun (m2 : DenseDFA) => m2.number_of_states
          = (DfaConfig.new_for_minimize d (compute_indistin_state_groups d)).number_of_states)
        _ ?_ _ _ ?_
      · intro a b hP
        cases hfind : (List.range d.number_of_states).find?
            (fun s => decide (s ∈ b)) with
        | none =>
          simp only [hfind]
          exact hP
        | some old_id =>
          simp only [hfind]
          refine foldl_preserve
            (fun (m2 : DenseDFA) => m2.number_of_states
              = (DfaConfig.new_for_minimize d (compute_indistin_state_groups d)).number_of_states)
            _ ?_ _ _ hP
          intro a2 b2 hP2
          show (a2.add_transition _ b2 _).number_of_states = _
          rw [add_transition_number_of_states]
          exact hP2
      · refine foldl_preserve
          (fun (m2 : DenseDFA) => m2.number_of_states
            = (DfaConfig.new_for_minimize d (compute_indistin_state_groups d)).number_of_states)
          _ ?_ _ _ ?_
        · intro a b hP
          by_cases hc : ((compute_indistin_state_groups d).contains_at b).isSome = true
          · simp only [if_pos hc]
            exact hP
          · simp only [if_neg hc]
            refine foldl_preserve
              (fun (m2 : DenseDFA) => m2.number_of_states
                = (DfaConfig.new_for_minimize d (compute_indistin_state_groups d)).number_of_states)
              _ ?_ _ _ hP
            intro a2 b2 hP2
            show (a2.add_transition _ b2 _).number_of_states = _
            rw [add_transition_number_of_states]
            exact hP2
        · exact init_with_config_number_of_states _
    have hcfg : (DfaConfig.new_for_minimize d (compute_indistin_state_groups d)).number_of_states
        = d.number_of_states - (compute_indistin_state_groups d).num_of_indistin_states
          + (compute_indistin_state_groups d).num_of_groups := rfl
    rw [hcount, hcfg]
    omega



/-- C8: state counts are monotone along the back end of the pipeline:
the dense DFA built from a sparse DFA has at most as many states (in
fact exactly as many), and whenever minimize returns a new DFA its
state count is at most the old one, because the new count is the old
count minus the merged-away states plus one state per group, the groups
are nonempty, pairwise disjoint and drawn from the state range. -/
theorem c8_state_counts_monotone :
    (∀ (sparse : DFA01),
       (DenseDFA.build_from_sparse01_dfa sparse).number_of_states ≤ sparse.states.length)
    ∧ (∀ (d m : DenseDFA), d.minimize = some m → m.number_of_states ≤ d.number_of_states) := by
  constructor
  · intro sparse
    rw [build_from_sparse_count]
  · exact minimize_number_of_states

/-- Witness for C8 at the concrete subset-construction DFA of ast01star
and the concrete five-state dense DFA d5, whose minimize returns a
four-state DFA. -/
theorem c8_state_counts_monotone_witness :
    (DenseDFA.build_from_sparse01_dfa sparse01star).number_of_states ≤ sparse01star.states.length
    ∧ ((DenseDFA.minimize d5).getD d5).number_of_states ≤ d5.number_of_states :=
  ⟨c8_state_counts_monotone.1 sparse01star,
   c8_state_counts_monotone.2 d5 ((DenseDFA.minimize d5).getD d5) (by decide)⟩

end RL

namespace RL

theorem set_getElem_self {α : Type} (l : List α) :
    ∀ (i : Nat) (h : i < l.length), l.set i l[i] = l := by
  induction l with
  | nil => intro i h; simp at h
  | cons x xs ih =>
    intro i h
    cases i with
    | zero => simp
    | succ i => simp [ih i (by simpa using h)]

theorem sum_map_set {α : Type} (f : α → Nat) (d : α) :
    ∀ (l : List α) (i : Nat) (x : α), i < l.length →
      ((l.set i x).map f).sum + f (l.getD i d) = (l.map f).sum + f x := by
  intro l
  induction l with
  | nil => intro i x h; simp at h
  | cons a as ih =>
    intro i x h
    cases i with
    | zero =>
      simp only [List.set_cons_zero, List.map_cons, List.sum_cons, List.getD_cons_zero]
      omega
    | succ i =>
      simp only [List.set_cons_succ, List.map_cons, List.sum_cons, List.getD_cons_succ]
      have := ih i x (by simpa using h)
      omega

theorem setCell_oob (t : PairTable) (r c : Nat) (p : StatePair)
    (h : ¬ (r < t.table.length ∧ c < (t.table.getD r []).length)) :
    t.setCell r c p = t := by
  unfold PairTable.setCell
  by_cases hr : r < t.table.length
  · have hc : ¬ c < (t.table.getD r []).length := fun hcc => h ⟨hr, hcc⟩
    have hrow : (t.table.getD r []).set c p = t.table.getD r [] :=
      List.set_eq_of_length_le (by omega)
    rw [hrow, List.getD_eq_getElem _ _ hr, set_getElem_self t.table r hr]
  · have houter : t.table.set r ((t.table.getD r []).set c p) = t.table :=
      List.set_eq_of_length_le (by omega)
    rw [houter]

theorem cell_oob (t : PairTable) (r c : Nat)
    (h : ¬ (r < t.table.length ∧ c < (t.table.getD r []).length)) :
    t.cell r c = StatePair.new := by
  unfold PairTable.cell
  by_cases hr : r < t.table.length
  · have hc : ¬ c < (t.table.getD r []).length := fun hcc => h ⟨hr, hcc⟩
    exact List.getD_eq_default _ _ (by omega)
  · have houter : t.table.getD r [] = [] := List.getD_eq_default _ _ (by omega)
    rw [houter]
    simp

theorem setCell_totalAssoc (t : PairTable) (r c : Nat) (p : StatePair)
    (hr : r < t.table.length) (hc : c < (t.table.getD r []).length) :
    (t.setCell r c p).totalAssoc + (t.cell r c).associated.length
      = t.totalAssoc + p.associated.length := by
  have outer := sum_map_set (fun row => (row.map (fun q => q.associated.length)).sum)
    ([] : List StatePair) t.table r ((t.table.getD r []).set c p) hr
  have inner := sum_map_set (fun q => q.associated.length) StatePair.new
    (t.table.getD r []) c p hc
  simp only [] at outer inner
  unfold PairTable.setCell PairTable.totalAssoc PairTable.cell
  simp only []
  omega

theorem cell_setCell_self (t : PairTable) (r c : Nat) (p : StatePair)
    (hr : r < t.table.length) (hc : c < (t.table.getD r []).length) :
    (t.setCell r c p).cell r c = p := by
  unfold PairTable.setCell PairTable.cell
  have h1 : r < (t.table.set r ((t.table.getD r []).set c p)).length := by
    simpa using hr
  rw [List.getD_eq_getElem _ _ h1, List.getElem_set_self]
  have h2 : c < ((t.table.getD r []).set c p).length := by simpa using hc
  rw [List.getD_eq_getElem _ _ h2, List.getElem_set_self]

theorem order_pair_idem (a b : Nat) :
    order_pair (order_pair a b).1 (order_pair a b).2 = order_pair a b := by
  unfold order_pair
  by_cases h : a < b
  · simp [h]
  · simp only [if_neg h]
    by_cases h2 : b < a
    · simp [h2]
    · simp only [if_neg h2]
      have hab : a = b := by omega
      subst hab
      rfl

theorem markDistin_totalAssoc (t : PairTable) (a b : Nat) :
    (t.markDistin a b).totalAssoc = t.totalAssoc := by
  show (t.setCell (order_pair a b).1 (order_pair a b).2
      ⟨(t.cell (order_pair a b).1 (order_pair a b).2).associated, true⟩).totalAssoc
      = t.totalAssoc
  by_cases hb : (order_pair a b).1 < t.table.length
      ∧ (order_pair a b).2 < (t.table.getD (order_pair a b).1 []).length
  · obtain ⟨hr, hc⟩ := hb
    have h := setCell_totalAssoc t (order_pair a b).1 (order_pair a b).2
      ⟨(t.cell (order_pair a b).1 (order_pair a b).2).associated, true⟩ hr hc
    have h2 : ((⟨(t.cell (order_pair a b).1 (order_pair a b).2).associated, true⟩ :
        StatePair)).associated
        = (t.cell (order_pair a b).1 (order_pair a b).2).associated := rfl
    rw [h2] at h
    omega
  · rw [setCell_oob _ _ _ _ hb]

theorem clearAssoc_totalAssoc (t : PairTable) (a b : Nat) :
    (t.clearAssoc a b).totalAssoc
      + ((t.cell (order_pair a b).1 (order_pair a b).2).associated).length
      = t.totalAssoc := by
  show (t.setCell (order_pair a b).1 (order_pair a b).2
      ⟨[], (t.cell (order_pair a b).1 (order_pair a b).2).distinguishable⟩).totalAssoc
      + ((t.cell (order_pair a b).1 (order_pair a b).2).associated).length
      = t.totalAssoc
  by_cases hb : (order_pair a b).1 < t.table.length
      ∧ (order_pair a b).2 < (t.table.getD (order_pair a b).1 []).length
  · obtain ⟨hr, hc⟩ := hb
    have h := setCell_totalAssoc t (order_pair a b).1 (order_pair a b).2
      ⟨[], (t.cell (order_pair a b).1 (order_pair a b).2).distinguishable⟩ hr hc
    have h2 : ((⟨[], (t.cell (order_pair a b).1 (order_pair a b).2).distinguishable⟩ :
        StatePair)).associated = ([] : List (Nat × Nat)) := rfl
    rw [h2] at h
    simp only [List.length_nil] at h
    omega
  · rw [setCell_oob _ _ _ _ hb, cell_oob _ _ _ hb]
    simp [StatePair.new]

theorem add_relation_totalAssoc (t : PairTable) (a b c e : Nat) :
    (t.add_relation a b c e).totalAssoc ≤ t.totalAssoc + 1 := by
  show (t.setCell (order_pair a b).1 (order_pair a b).2
      ⟨(t.cell (order_pair a b).1 (order_pair a b).2).associated ++ [order_pair c e],
        (t.cell (order_pair a b).1 (order_pair a b).2).distinguishable⟩).totalAssoc
      ≤ t.totalAssoc + 1
  by_cases hb : (order_pair a b).1 < t.table.length
      ∧ (order_pair a b).2 < (t.table.getD (order_pair a b).1 []).length
  · obtain ⟨hr, hc⟩ := hb
    have h := setCell_totalAssoc t (order_pair a b).1 (order_pair a b).2
      ⟨(t.cell (order_pair a b).1 (order_pair a b).2).associated ++ [order_pair c e],
        (t.cell (order_pair a b).1 (order_pair a b).2).distinguishable⟩ hr hc
    have h2 : ((⟨(t.cell (order_pair a b).1 (order_pair a b).2).associated
          ++ [order_pair c e],
        (t.cell (order_pair a b).1 (order_pair a b).2).distinguishable⟩ :
        StatePair)).associated
        = (t.cell (order_pair a b).1 (order_pair a b).2).associated
          ++ [order_pair c e] := rfl
    rw [h2] at h
    simp only [List.length_append, List.length_cons, List.length_nil] at h
    omega
  · rw [setCell_oob _ _ _ _ hb]
    omega

theorem markDistin_assoc_eq (t : PairTable) (a b : Nat) :
    ((t.markDistin a b).cell (order_pair a b).1 (order_pair a b).2).associated
      = (t.cell (order_pair a b).1 (order_pair a b).2).associated := by
  show ((t.setCell (order_pair a b).1 (order_pair a b).2
      ⟨(t.cell (order_pair a b).1 (order_pair a b).2).associated,
        true⟩).cell (order_pair a b).1 (order_pair a b).2).associated
      = (t.cell (order_pair a b).1 (order_pair a b).2).associated
  by_cases hb : (order_pair a b).1 < t.table.length
      ∧ (order_pair a b).2 < (t.table.getD (order_pair a b).1 []).length
  · obtain ⟨hr, hc⟩ := hb
    rw [cell_setCell_self _ _ _ _ hr hc]
  · rw [setCell_oob _ _ _ _ hb]

theorem distinguishList_suff
    (f : PairTable → Nat → Nat → Option (PairTable × Nat)) (fuel : Nat)
    (hsuff : ∀ (t : PairTable) (a b : Nat), t.totalAssoc < fuel →
      ∃ r, f t a b = some r ∧ r.1.totalAssoc + (r.2 - 1) ≤ t.totalAssoc ∧ 1 ≤ r.2) :
    ∀ (l : List (Nat × Nat)) (t : PairTable), t.totalAssoc + l.length ≤ fuel →
      ∃ r, distinguishList f t l = some r
        ∧ r.1.totalAssoc + r.2 ≤ t.totalAssoc + l.length := by
  intro l
  induction l with
  | nil =>
    intro t h
    exact ⟨(t, 0), rfl, by simp⟩
  | cons q rest ih =>
    intro t h
    simp only [List.length_cons] at h
    have h1 : t.totalAssoc < fuel := by omega
    obtain ⟨r1, hr1, hb1, hc1⟩ := hsuff t q.1 q.2 h1
    have h2 : r1.1.totalAssoc + rest.length ≤ fuel := by omega
    obtain ⟨r2, hr2, hb2⟩ := ih r1.1 h2
    refine ⟨(r2.1, r1.2 + r2.2), ?_, ?_⟩
    · simp [distinguishList, hr1, hr2]
    · simp only [List.length_cons]
      omega

theorem distinguishC_suff :
    ∀ (fuel : Nat) (t : PairTable) (a b : Nat), t.totalAssoc < fuel →
      ∃ r, distinguishC fuel t a b = some r
        ∧ r.1.totalAssoc + (r.2 - 1) ≤ t.totalAssoc ∧ 1 ≤ r.2 := by
  intro fuel
  induction fuel with
  | zero => intro t a b h; exact absurd h (Nat.not_lt_zero _)
  | succ fuel ih =>
    intro t a b h
    by_cases ha : ((t.markDistin (order_pair a b).1 (order_pair a b).2).cell
        (order_pair a b).1 (order_pair a b).2).associated = []
    · refine ⟨(t.markDistin (order_pair a b).1 (order_pair a b).2, 1), ?_, ?_, ?_⟩
      · simp only [distinguishC]
        rw [if_pos ha]
      · show (t.markDistin (order_pair a b).1 (order_pair a b).2).totalAssoc + (1 - 1)
            ≤ t.totalAssoc
        have hm := markDistin_totalAssoc t (order_pair a b).1 (order_pair a b).2
        omega
      · show 1 ≤ 1
        omega
    · have hm := markDistin_totalAssoc t (order_pair a b).1 (order_pair a b).2
      have hclear := clearAssoc_totalAssoc
        (t.markDistin (order_pair a b).1 (order_pair a b).2)
        (order_pair a b).1 (order_pair a b).2
      rw [order_pair_idem] at hclear
      have hbound : ((t.markDistin (order_pair a b).1 (order_pair a b).2).clearAssoc
            (order_pair a b).1 (order_pair a b).2).totalAssoc
          + (((t.markDistin (order_pair a b).1 (order_pair a b).2).cell
              (order_pair a b).1 (order_pair a b).2).associated).length ≤ fuel := by
        omega
      obtain ⟨rl, hrl, hbl⟩ := distinguishList_suff (distinguishC fuel) fuel ih
        (((t.markDistin (order_pair a b).1 (order_pair a b).2).cell
            (order_pair a b).1 (order_pair a b).2).associated)
        ((t.markDistin (order_pair a b).1 (order_pair a b).2).clearAssoc
            (order_pair a b).1 (order_pair a b).2) hbound
      refine ⟨(rl.1, rl.2 + 1), ?_, ?_, ?_⟩
      · simp only [distinguishC]
        rw [if_neg ha, hrl]
        rfl
      · show rl.1.totalAssoc + (rl.2 + 1 - 1) ≤ t.totalAssoc
        omega
      · show 1 ≤ rl.2 + 1
        omega

theorem distinguish_totalAssoc_le (t : PairTable) (a b : Nat) :
    (t.distinguish a b).totalAssoc ≤ t.totalAssoc := by
  unfold PairTable.distinguish
  obtain ⟨r, hr, hb, hc⟩ := distinguishC_suff (t.totalAssoc + 1) t a b (by omega)
  rw [hr]
  show r.1.totalAssoc ≤ t.totalAssoc
  omega

theorem foldl_bounded {α β : Type} (g : α → Nat) (f : α → β → α) (c : Nat)
    (h : ∀ a b, g (f a b) ≤ g a + c) :
    ∀ (l : List β) (a : α), g (l.foldl f a) ≤ g a + c * l.length := by
  intro l
  induction l with
  | nil => intro a; simp
  | cons b rest ih =>
    intro a
    have h1 := ih (f a b)
    have h2 := h a b
    simp only [List.foldl_cons, List.length_cons, Nat.mul_succ]
    omega

theorem scanInputs_bound (d : DenseDFA) (s1 s2 : Nat) :
    ∀ (inputs : List Nat) (t : PairTable) (temp : List (Nat × Nat)),
      (scanInputs d s1 s2 t inputs temp).1.totalAssoc ≤ t.totalAssoc
      ∧ (scanInputs d s1 s2 t inputs temp).2.length ≤ temp.length + inputs.length := by
  intro inputs
  induction inputs with
  | nil => intro t temp; exact ⟨Nat.le_refl _, by simp [scanInputs]⟩
  | cons input rest ih =>
    intro t temp
    simp only [scanInputs]
    by_cases h1 : d.delta s1 input = d.delta s2 input
    · rw [if_pos h1]
      have := ih t temp
      simp only [List.length_cons]
      omega
    · rw [if_neg h1]
      by_cases h2 : t.is_distinguishable (d.delta s1 input) (d.delta s2 input) = true
      · rw [if_pos h2]
        refine ⟨distinguish_totalAssoc_le t s1 s2, by simp⟩
      · rw [if_neg h2]
        have := ih t (temp ++ [(d.delta s1 input, d.delta s2 input)])
        simp only [List.length_append, List.length_cons, List.length_nil] at this
        simp only [List.length_cons]
        omega

theorem scanPair_totalAssoc (d : DenseDFA) (t : PairTable) (s1 s2 : Nat) :
    (scanPair d t s1 s2).totalAssoc ≤ t.totalAssoc + d.alphabet.length := by
  unfold scanPair
  by_cases h1 : t.is_distinguishable s1 s2 = true
  · rw [if_pos h1]
    omega
  · rw [if_neg h1]
    simp only []
    have hsi := scanInputs_bound d s1 s2 d.alphabet t []
    simp only [List.length_nil, Nat.zero_add] at hsi
    by_cases h2 : (scanInputs d s1 s2 t d.alphabet []).1.is_distinguishable s1 s2 = true
    · rw [if_pos h2]
      omega
    · rw [if_neg h2]
      have hf := foldl_bounded PairTable.totalAssoc
        (fun (t2 : PairTable) (q : Nat × Nat) => t2.add_relation q.1 q.2 s1 s2) 1
        (fun a b => add_relation_totalAssoc a b.1 b.2 s1 s2)
        (scanInputs d s1 s2 t d.alphabet []).2
        (scanInputs d s1 s2 t d.alphabet []).1
      simp only [Nat.one_mul] at hf
      omega

theorem scanAllPairs_totalAssoc (d : DenseDFA) (t : PairTable) :
    (scanAllPairs d t).totalAssoc
      ≤ t.totalAssoc
        + (d.alphabet.length * d.number_of_states) * (d.number_of_states - 1) := by
  unfold scanAllPairs
  have hstep : ∀ (t2 : PairTable) (s1 : Nat),
      ((List.range' (s1 + 1) (d.number_of_states - (s1 + 1))).foldl
          (fun t3 state2 => scanPair d t3 s1 state2) t2).totalAssoc
        ≤ t2.totalAssoc + d.alphabet.length * d.number_of_states := by
    intro t2 s1
    have hin := foldl_bounded PairTable.totalAssoc
      (fun (t3 : PairTable) (state2 : Nat) => scanPair d t3 s1 state2)
      d.alphabet.length
      (fun a b => scanPair_totalAssoc d a s1 b)
      (List.range' (s1 + 1) (d.number_of_states - (s1 + 1))) t2
    simp only [List.length_range'] at hin
    have hle : d.alphabet.length * (d.number_of_states - (s1 + 1))
        ≤ d.alphabet.length * d.number_of_states :=
      Nat.mul_le_mul_left _ (by omega)
    omega
  have hout := foldl_bounded PairTable.totalAssoc
    (fun (t2 : PairTable) (s1 : Nat) =>
      (List.range' (s1 + 1) (d.number_of_states - (s1 + 1))).foldl
        (fun t3 state2 => scanPair d t3 s1 state2) t2)
    (d.alphabet.length * d.number_of_states)
    hstep (List.range (d.number_of_states - 1)) t
  simp only [List.length_range] at hout
  exact hout

theorem pairTable_new_totalAssoc (n : Nat) : (PairTable.new n).totalAssoc = 0 := by
  simp [PairTable.new, PairTable.totalAssoc, StatePair.new]

theorem initAcceptMarks_totalAssoc (d : DenseDFA) (t : PairTable) :
    (initAcceptMarks d t).totalAssoc = t.totalAssoc := by
  unfold initAcceptMarks
  refine foldl_preserve (fun (t2 : PairTable) => t2.totalAssoc = t.totalAssoc) _ ?_ _ _ rfl
  intro t2 s1 h
  by_cases hs : s1 ∈ d.accept_states
  · rw [if_pos hs]
    refine foldl_preserve (fun (t3 : PairTable) => t3.totalAssoc = t.totalAssoc) _ ?_ _ _ h
    intro t3 s2 h2
    by_cases hs2 : s2 ∈ d.accept_states
    · rw [if_pos hs2]; exact h2
    · rw [if_neg hs2]
      rw [markDistin_totalAssoc]
      exact h2
  · rw [if_neg hs]
    exact h

/-- C9: the distinguish propagation of the minimizer terminates.  With
fuel one more than the total number of recorded dependency entries,
distinguishC always returns (never runs out of fuel, even when the
dependency records form cycles), the number of calls made is at most
that total plus one, and the total never grows; and for the pair table
built by the minimizer scan the total is at most the alphabet size times
the square of the state count, which over the binary alphabet of this
pipeline is O(n^2). -/
theorem c9_distinguish_terminates :
    (∀ (t : PairTable) (state1 state2 : Nat),
        ∃ r, distinguishC (t.totalAssoc + 1) t state1 state2 = some r
          ∧ r.2 ≤ t.totalAssoc + 1
          ∧ r.1.totalAssoc ≤ t.totalAssoc)
      ∧ ∀ (d : DenseDFA),
          (scanAllPairs d (initAcceptMarks d (PairTable.new d.number_of_states))).totalAssoc
            ≤ d.alphabet.length * (d.number_of_states * d.number_of_states) := by
  constructor
  · intro t a b
    obtain ⟨r, hr, hb, hc⟩ := distinguishC_suff (t.totalAssoc + 1) t a b (by omega)
    exact ⟨r, hr, by omega, by omega⟩
  · intro d
    have h1 := scanAllPairs_totalAssoc d (initAcceptMarks d (PairTable.new d.number_of_states))
    rw [initAcceptMarks_totalAssoc, pairTable_new_totalAssoc] at h1
    have h2 : (d.alphabet.length * d.number_of_states) * (d.number_of_states - 1)
        ≤ d.alphabet.length * (d.number_of_states * d.number_of_states) := by
      rw [Nat.mul_assoc]
      exact Nat.mul_le_mul_left _ (Nat.mul_le_mul_left _ (by omega))
    omega

end RL

namespace RL

theorem remapFold_prefix
    (f : List (Option Nat) × Nat → State → List (Option Nat) × Nat)
    (hgrow : ∀ (a : List (Option Nat) × Nat) (st : State), ∃ e n2, f a st = (a.1 ++ [e], n2)) :
    ∀ (l : List State) (acc : List (Option Nat)) (n i : Nat), i < acc.length →
      ((l.foldl f (acc, n)).1).getD i none = acc.getD i none := by
  intro l
  induction l with
  | nil => intro acc n i h; rfl
  | cons st rest ih =>
    intro acc n i h
    simp only [List.foldl_cons]
    obtain ⟨e, n2, he⟩ := hgrow (acc, n) st
    rw [he, ih (acc ++ [e]) n2 i (by simp; omega)]
    exact List.getD_append _ _ _ _ h

theorem remapFold_getD
    (f : List (Option Nat) × Nat → State → List (Option Nat) × Nat)
    (hfail : ∀ acc n, f (acc, n) State.Fail = (acc ++ [none], n))
    (heps : ∀ acc n ts, f (acc, n) (State.Epsilon ts) = (acc ++ [some n], n + 1))
    (hnon : ∀ acc n ts, f (acc, n) (State.NonEpsilon ts) = (acc ++ [some n], n + 1))
    (hfin : ∀ acc n, f (acc, n) State.Final = (acc ++ [some n], n + 1)) :
    ∀ (l : List State) (acc : List (Option Nat)) (n s : Nat), s < l.length →
      ((l.foldl f (acc, n)).1).getD (acc.length + s) none
        = if l.getD s State.Fail = State.Fail then none
          else some (n + (l.take s).countP (fun st => st != State.Fail)) := by
  have hgrow : ∀ (a : List (Option Nat) × Nat) (st : State),
      ∃ e n2, f a st = (a.1 ++ [e], n2) := by
    intro a st
    cases st with
    | Fail => exact ⟨none, a.2, hfail a.1 a.2⟩
    | Epsilon ts => exact ⟨some a.2, a.2 + 1, heps a.1 a.2 ts⟩
    | NonEpsilon ts => exact ⟨some a.2, a.2 + 1, hnon a.1 a.2 ts⟩
    | Final => exact ⟨some a.2, a.2 + 1, hfin a.1 a.2⟩
  intro l
  induction l with
  | nil => intro acc n s h; simp at h
  | cons st rest ih =>
    intro acc n s h
    simp only [List.foldl_cons]
    cases s with
    | zero =>
      simp only [List.getD_cons_zero, List.take_zero, List.countP_nil, Nat.add_zero]
      cases st with
      | Fail =>
        rw [hfail, remapFold_prefix f hgrow rest (acc ++ [none]) n acc.length (by simp),
          List.getD_append_right _ _ _ _ (Nat.le_refl _)]
        simp
      | Epsilon ts =>
        rw [heps, remapFold_prefix f hgrow rest (acc ++ [some n]) (n + 1) acc.length (by simp),
          List.getD_append_right _ _ _ _ (Nat.le_refl _)]
        simp
      | NonEpsilon ts =>
        rw [hnon, remapFold_prefix f hgrow rest (acc ++ [some n]) (n + 1) acc.length (by simp),
          List.getD_append_right _ _ _ _ (Nat.le_refl _)]
        simp
      | Final =>
        rw [hfin, remapFold_prefix f hgrow rest (acc ++ [some n]) (n + 1) acc.length (by simp),
          List.getD_append_right _ _ _ _ (Nat.le_refl _)]
        simp
    | succ s =>
      have h2 : s < rest.length := by simpa using h
      simp only [List.getD_cons_succ, List.take_succ_cons, List.countP_cons]
      cases st with
      | Fail =>
        rw [hfail,
          show acc.length + (s + 1) = (acc ++ [(none : Option Nat)]).length + s from by
            simp; omega,
          ih (acc ++ [none]) n s h2]
        have hp : ((fun st => st != State.Fail) State.Fail) = false := rfl
        simp [hp]
      | Epsilon ts =>
        rw [heps,
          show acc.length + (s + 1) = (acc ++ [some n]).length + s from by simp; omega,
          ih (acc ++ [some n]) (n + 1) s h2]
        have hp : ((fun st => st != State.Fail) (State.Epsilon ts)) = true := rfl
        by_cases hc : rest.getD s State.Fail = State.Fail
        · simp only [if_pos hc]
        · simp only [if_neg hc, hp, if_true, Option.some.injEq]
          omega
      | NonEpsilon ts =>
        rw [hnon,
          show acc.length + (s + 1) = (acc ++ [some n]).length + s from by simp; omega,
          ih (acc ++ [some n]) (n + 1) s h2]
        have hp : ((fun st => st != State.Fail) (State.NonEpsilon ts)) = true := rfl
        by_cases hc : rest.getD s State.Fail = State.Fail
        · simp only [if_pos hc]
        · simp only [if_neg hc, hp, if_true, Option.some.injEq]
          omega
      | Final =>
        rw [hfin,
          show acc.length + (s + 1) = (acc ++ [some n]).length + s from by simp; omega,
          ih (acc ++ [some n]) (n + 1) s h2]
        have hp : ((fun st => st != State.Fail) State.Final) = true := rfl
        by_cases hc : rest.getD s State.Fail = State.Fail
        · simp only [if_pos hc]
        · simp only [if_neg hc, hp, if_true, Option.some.injEq]
          omega

theorem remap_id_map_getD (l : List State) (s : Nat) (h : s < l.length) :
    (remap_id_map l).getD s none
      = if l.getD s State.Fail = State.Fail then none
        else some ((l.take s).countP (fun st => st != State.Fail)) := by
  have h0 := remapFold_getD
    (fun (acc : List (Option Nat) × Nat) state =>
      match state with
      | State.Fail => (acc.1 ++ [none], acc.2)
      | _ => (acc.1 ++ [some acc.2], acc.2 + 1))
    (fun a n => rfl) (fun a n ts => rfl) (fun a n ts => rfl) (fun a n => rfl)
    l [] 0 s h
  simp only [List.length_nil, Nat.zero_add] at h0
  exact h0

theorem remap_entry_ne (l : List State) (s j : Nat) (hj : j < s) (hs : s < l.length)
    (hfail : l.getD j State.Final = State.Fail) :
    (remap_id_map l).getD s none ≠ some s := by
  rw [remap_id_map_getD l s hs]
  by_cases hc : l.getD s State.Fail = State.Fail
  · rw [if_pos hc]
    simp
  · rw [if_neg hc]
    simp only [ne_eq, Option.some.injEq]
    intro heq
    have hjl : j < l.length := by omega
    have hjt : j < (l.take s).length := by
      rw [List.length_take]
      omega
    have hmem : State.Fail ∈ l.take s := by
      have hsame : (l.take s).getD j State.Final = l.getD j State.Final := by
        rw [List.getD_eq_getElem _ _ hjt, List.getD_eq_getElem _ _ hjl, List.getElem_take]
      have h3 : (l.take s).getD j State.Final = State.Fail := hsame.trans hfail
      rw [List.getD_eq_getElem _ _ hjt] at h3
      exact h3 ▸ List.getElem_mem hjt
    have hsplit := List.length_eq_countP_add_countP (fun st => st != State.Fail) (l.take s)
    have hlen : (l.take s).length = s := by
      rw [List.length_take]
      omega
    have hpos : 0 < (l.take s).countP (fun a => decide ¬(a != State.Fail) = true) := by
      rw [List.countP_pos_iff]
      exact ⟨State.Fail, hmem, by decide⟩
    rw [hlen, heq] at hsplit
    omega

/-- C10: eliminate_epsilon copies the start-state id and the first
accept-state id verbatim from the input NFA into the output, never
passing them through the renumbering table that remap_states applies to
transition targets; and the renumbering table maps any state preceded
by a dropped Fail state to a strictly smaller id (or none), so the
copied ids name different states whenever a dropped Fail state has a
lower id. -/
theorem c10_start_accept_copied_verbatim :
    (∀ (old : NFA) (fuel : Nat) (out : NFA) (a : Nat) (rest : List Nat),
        old.accept_states = a :: rest →
        build_non_epsilon_nfa old fuel = some out →
        out.start_state = old.start_state ∧ out.accept_states = [a])
      ∧ ∀ (l : List State) (s j : Nat), j < s → s < l.length →
          l.getD j State.Final = State.Fail →
          (remap_id_map l).getD s none ≠ some s := by
  constructor
  · intro old fuel out a rest hacc h
    simp only [build_non_epsilon_nfa, Option.bind_eq_bind, Option.bind_eq_some] at h
    obtain ⟨kinds, hk, h⟩ := h
    obtain ⟨kt, hkt, h⟩ := h
    cases hstart : old.start_state with
    | none =>
      rw [hstart] at h
      simp at h
    | some start =>
      rw [hstart, hacc] at h
      simp only [Option.bind_eq_bind, Option.bind_eq_some] at h
      obtain ⟨unreach, hu, h⟩ := h
      simp only [NFA.remap_states, Option.bind_eq_bind, Option.bind_eq_some] at h
      obtain ⟨remapped, hm, h⟩ := h
      simp only [Option.pure_def, Option.some.injEq] at h
      rw [← h]
      exact ⟨rfl, rfl⟩
  · exact fun l s j hj hs hf => remap_entry_ne l s j hj hs hf

/-- Witness for C10: the empty-regex epsilon-NFA has accept list [0]
and start state 2; elimination keeps both ids verbatim; and in a state
list with a Fail state at index 0 the renumbering table does not map
index 1 to itself. -/
theorem c10_start_accept_copied_verbatim_witness :
    ((0 : Nat) < 1 ∧ 1 < ([State.Fail, State.Final] : List State).length
      ∧ ([State.Fail, State.Final] : List State).getD 0 State.Final = State.Fail
      ∧ (remap_id_map [State.Fail, State.Final]).getD 1 none ≠ some 1)
    ∧ nfaEmptyRe.accept_states = 0 :: []
    ∧ ∃ out, build_non_epsilon_nfa nfaEmptyRe 32 = some out
        ∧ out.start_state = nfaEmptyRe.start_state ∧ out.accept_states = [0] := by
  have h1 : nfaEmptyRe.accept_states = 0 :: [] := by decide
  have h2 : build_non_epsilon_nfa nfaEmptyRe 32 = some ⟨[], ∅, some 1, [0]⟩ := by decide
  refine ⟨⟨by decide, by decide, by decide,
    c10_start_accept_copied_verbatim.2 [State.Fail, State.Final] 1 0 (by decide) (by decide)
      (by decide)⟩, h1, ⟨[], ∅, some 1, [0]⟩, h2, ?_, ?_⟩
  · exact (c10_start_accept_copied_verbatim.1 nfaEmptyRe 32 _ 0 [] h1 h2).1
  · exact (c10_start_accept_copied_verbatim.1 nfaEmptyRe 32 _ 0 [] h1 h2).2

end RL

namespace RL

theorem containsKey_exists (sp : DFA01) (k : Nat) (h : sp.containsKey k = true) :
    ∃ p ∈ sp.states, p.1 = k := by
  unfold DFA01.containsKey DFA01.lookupState? at h
  cases hf : sp.states.find? (fun p => p.1 == k) with
  | none =>
    rw [hf] at h
    simp at h
  | some x =>
    have hpx := List.find?_some hf
    have hxk : x.1 = k := by simpa using hpx
    exact ⟨x, List.mem_of_find?_eq_some hf, hxk⟩

theorem sortedStates_perm (sp : DFA01) : sp.sortedStates.Perm sp.states :=
  List.perm_insertionSort _ _

theorem sortedStates_head_zero (sp : DFA01) (h0 : ∃ p ∈ sp.states, p.1 = 0) :
    ∃ p rest, sp.sortedStates = p :: rest ∧ p.1 = 0 := by
  haveI htot : IsTotal (Nat × State01) (fun a b => a.1 ≤ b.1) :=
    ⟨fun a b => Nat.le_total a.1 b.1⟩
  haveI htr : IsTrans (Nat × State01) (fun a b => a.1 ≤ b.1) :=
    ⟨fun a b c hab hbc => Nat.le_trans hab hbc⟩
  have hsort : List.Sorted (fun (a b : Nat × State01) => a.1 ≤ b.1) sp.sortedStates :=
    List.sorted_insertionSort _ _
  obtain ⟨q, hq, hq0⟩ := h0
  have hqmem : q ∈ sp.sortedStates := (sortedStates_perm sp).mem_iff.mpr hq
  cases hss : sp.sortedStates with
  | nil =>
    rw [hss] at hqmem
    simp at hqmem
  | cons p rest =>
    refine ⟨p, rest, rfl, ?_⟩
    rw [hss] at hqmem hsort
    rw [List.sorted_cons] at hsort
    rcases List.mem_cons.mp hqmem with hqp | hqrest
    · rw [← hqp]
      exact hq0
    · have hle := hsort.1 q hqrest
      omega

theorem lookup0_enumFrom_head (p : Nat × State01) (rest : List (Nat × State01)) (n : Nat) :
    lookup0 (((p :: rest).enumFrom n).map (fun q => (q.2.1, q.1))) p.1 = n := by
  simp [lookup0, List.enumFrom_cons, List.find?_cons]

theorem lookup0_enumFrom_pos :
    ∀ (rest : List (Nat × State01)) (n k : Nat), 1 ≤ n → (∃ q ∈ rest, q.1 = k) →
      1 ≤ lookup0 ((rest.enumFrom n).map (fun q => (q.2.1, q.1))) k := by
  intro rest
  induction rest with
  | nil =>
    intro n k hn hex
    simp at hex
  | cons q rs ih =>
    intro n k hn hex
    by_cases hq : q.1 = k
    · have heq : lookup0 (((q :: rs).enumFrom n).map (fun q2 => (q2.2.1, q2.1))) k = n := by
        simp [lookup0, List.enumFrom_cons, List.find?_cons, hq]
      rw [heq]
      exact hn
    · have hex2 : ∃ x ∈ rs, x.1 = k := by
        obtain ⟨x, hx, hxk⟩ := hex
        rcases List.mem_cons.mp hx with hxq | hxr
        · rw [hxq] at hxk
          exact absurd hxk hq
        · exact ⟨x, hxr, hxk⟩
      have hb : (q.1 == k) = false := beq_eq_false_iff_ne.mpr hq
      have hskip : lookup0 (((q :: rs).enumFrom n).map (fun q2 => (q2.2.1, q2.1))) k
          = lookup0 ((rs.enumFrom (n + 1)).map (fun q2 => (q2.2.1, q2.1))) k := by
        simp [lookup0, List.enumFrom_cons, List.find?_cons, hb]
      rw [hskip]
      exact ih (n + 1) k (by omega) hex2

theorem build_from_sparse_accept (sp : DFA01) :
    (DenseDFA.build_from_sparse01_dfa sp).accept_states
      = sp.accept_states.image (fun id => lookup0 (DfaConfig.new_from_01 sp).id_map id) := by
  unfold DenseDFA.build_from_sparse01_dfa
  refine foldl_preserve
    (fun (d : DenseDFA) => d.accept_states
      = sp.accept_states.image (fun id => lookup0 (DfaConfig.new_from_01 sp).id_map id))
    _ ?_ _ _ rfl
  intro a b hP
  exact hP

/-- C5 amended: whenever the sparse DFA actually contains the empty-subset
state id 0 and every accepting id is a present nonzero key, dense index 0 is
the trap sentinel: sparse id 0 is renumbered to dense index 0, every other
present key is renumbered to a nonzero dense index (so no real state gets
index 0 and every transition cell written from a real target is nonzero),
and index 0 is never an accept state.  The unconditional claim is refuted by
the counterexample: the pipeline can produce a sparse DFA without id 0, and
then the real start state receives dense index 0. -/
theorem c5_amended_trap_when_zero_present (sp : DFA01)
    (h0 : sp.containsKey 0 = true)
    (hacc : ∀ a ∈ sp.accept_states, sp.containsKey a = true ∧ a ≠ 0) :
    lookup0 (DfaConfig.new_from_01 sp).id_map 0 = 0
    ∧ (∀ k, sp.containsKey k = true → k ≠ 0 →
        lookup0 (DfaConfig.new_from_01 sp).id_map k ≠ 0)
    ∧ 0 ∉ (DenseDFA.build_from_sparse01_dfa sp).accept_states := by
  obtain ⟨p, rest, hss, hp0⟩ := sortedStates_head_zero sp (containsKey_exists sp 0 h0)
  have hid : (DfaConfig.new_from_01 sp).id_map
      = sp.sortedStates.enum.map (fun q => (q.2.1, q.1)) := rfl
  have h1 : lookup0 (DfaConfig.new_from_01 sp).id_map 0 = 0 := by
    have hh := lookup0_enumFrom_head p rest 0
    rw [hp0] at hh
    rw [hid, hss]
    exact hh
  have h2 : ∀ k, sp.containsKey k = true → k ≠ 0 →
      lookup0 (DfaConfig.new_from_01 sp).id_map k ≠ 0 := by
    intro k hk hkne
    have hexk2 : ∃ q ∈ sp.sortedStates, q.1 = k := by
      obtain ⟨q, hq, hqk⟩ := containsKey_exists sp k hk
      exact ⟨q, (sortedStates_perm sp).mem_iff.mpr hq, hqk⟩
    rw [hss] at hexk2
    have hexrest : ∃ q ∈ rest, q.1 = k := by
      obtain ⟨q, hq, hqk⟩ := hexk2
      rcases List.mem_cons.mp hq with hqp | hqr
      · rw [hqp, hp0] at hqk
        exact absurd hqk.symm hkne
      · exact ⟨q, hqr, hqk⟩
    have hpos := lookup0_enumFrom_pos rest 1 k (Nat.le_refl 1) hexrest
    have hb : (p.1 == k) = false := by
      rw [hp0]
      exact beq_eq_false_iff_ne.mpr (fun h => hkne h.symm)
    have hskip : lookup0 ((sp.sortedStates.enum).map (fun q => (q.2.1, q.1))) k
        = lookup0 ((rest.enumFrom 1).map (fun q => (q.2.1, q.1))) k := by
      rw [hss, List.enum_cons]
      simp [lookup0, List.find?_cons, hb]
    rw [hid, hskip]
    omega
  refine ⟨h1, h2, ?_⟩
  rw [build_from_sparse_accept]
  intro hmem
  rw [Finset.mem_image] at hmem
  obtain ⟨a, ha, hla⟩ := hmem
  obtain ⟨hak, hane⟩ := hacc a ha
  exact h2 a hak hane hla

/-- Witness for the amended C5 at a sparse DFA that does contain id 0. -/
theorem c5_amended_trap_witness :
    sparseWithTrap.containsKey 0 = true
    ∧ lookup0 (DfaConfig.new_from_01 sparseWithTrap).id_map 0 = 0
    ∧ sparseWithTrap.containsKey 2 = true
    ∧ lookup0 (DfaConfig.new_from_01 sparseWithTrap).id_map 2 ≠ 0
    ∧ 0 ∉ (DenseDFA.build_from_sparse01_dfa sparseWithTrap).accept_states := by
  have h0 : sparseWithTrap.containsKey 0 = true := by decide
  have ha : ∀ a ∈ sparseWithTrap.accept_states,
      sparseWithTrap.containsKey a = true ∧ a ≠ 0 := by decide
  obtain ⟨h1, h2, h3⟩ := c5_amended_trap_when_zero_present sparseWithTrap h0 ha
  exact ⟨h0, h1, by decide, h2 2 (by decide) (by decide), h3⟩

/-- Counterexample to C5 as stated: the sparse DFA the pipeline builds for
the regex (0|1)* has keys 2 and 5 only (no empty-subset state 0), its start
state 2 receives dense index 0, and dense state 0 is a live state with an
outgoing transition, so index 0 is not a trap sentinel. -/
theorem c5_counterexample :
    build_dfa_from_nfa nonEps01star 32 = Except.ok sparse01star
    ∧ sparse01star.containsKey 0 = false
    ∧ sparse01star.start_state = some 2
    ∧ (DenseDFA.build_from_sparse01_dfa sparse01star).start_state = some 0
    ∧ (DenseDFA.build_from_sparse01_dfa sparse01star).delta 0 48 = 1
    ∧ (DenseDFA.build_from_sparse01_dfa sparse01star).accept_states = {1} := by
  decide

end RL
